import Mathlib

/-!
Verification of the incremental document-processing core of `theparser`
(`src/main.py`): the clean transform, the per-subject event log, the
staleness detector, the processing-plan builder and the merge engine.

Text is modelled as `List Char`; Python strings map to char lists, and
Python's `str.split('\n')` / `'\n'.join` / `str.replace` / `str.count` /
`str.lstrip` are embedded as executable functions below.
-/

namespace TheParser

/-- Python's default whitespace set, as used by `str.strip()` with no
argument (`Py_UNICODE_ISSPACE`): ASCII whitespace, the C0 separators,
NEL, NBSP and the Unicode space/separator code points. -/
def pySpace (c : Char) : Bool :=
  c = ' ' || c = '\t' || c = '\n' || c = '\x0b' || c = '\x0c' || c = '\r' ||
  c = '\x1c' || c = '\x1d' || c = '\x1e' || c = '\x1f' || c = '\x85' || c = '\xa0' ||
  c = ' ' || (' ' ≤ c && c ≤ ' ') || c = ' ' || c = ' ' ||
  c = ' ' || c = ' ' || c = '　'

/-- `leadMatch pat xs` is true when `pat` is an initial run of `xs`. -/
def leadMatch : List Char → List Char → Bool
  | [], _ => true
  | _ :: _, [] => false
  | a :: as, b :: bs => a == b && leadMatch as bs

/-- `occursIn pat xs` is true when `pat` appears as a contiguous run
somewhere inside `xs` (Python's `pat in xs`). -/
def occursIn (pat : List Char) : List Char → Bool
  | [] => leadMatch pat []
  | c :: rest => leadMatch pat (c :: rest) || occursIn pat rest

/-- Scanner for Python `xs.replace(pat, "")`: `skip` counts characters of a
matched occurrence still to be deleted.  On a match at the current position
the head is deleted and the remaining `pat.length - 1` characters are
scheduled for deletion, so occurrences are removed non-overlapping, left to
right, exactly as `str.replace` does. -/
def pyRemoveAux (pat : List Char) : Nat → List Char → List Char
  | _, [] => []
  | Nat.succ k, _ :: cs => pyRemoveAux pat k cs
  | 0, c :: cs =>
    if pat ≠ [] ∧ leadMatch pat (c :: cs) = true then
      pyRemoveAux pat (pat.length - 1) cs
    else
      c :: pyRemoveAux pat 0 cs

/-- Python `xs.replace(pat, "")`: delete the non-overlapping occurrences of
`pat`, scanning left to right.  `pat = []` is the identity, as in Python
(`replace("", "")` inserts empty strings). -/
def pyRemove (pat : List Char) (xs : List Char) : List Char :=
  pyRemoveAux pat 0 xs

/-- Scanner for Python `xs.count(pat)`, with the same skip discipline as
`pyRemoveAux`. -/
def countOccAux (pat : List Char) : Nat → List Char → Nat
  | _, [] => 0
  | Nat.succ k, _ :: cs => countOccAux pat k cs
  | 0, c :: cs =>
    if pat ≠ [] ∧ leadMatch pat (c :: cs) = true then
      countOccAux pat (pat.length - 1) cs + 1
    else
      countOccAux pat 0 cs

/-- Python `xs.count(pat)`: the number of non-overlapping occurrences of
`pat` in `xs`, scanning left to right. -/
def countOcc (pat : List Char) (xs : List Char) : Nat :=
  countOccAux pat 0 xs

/-- The fixed boilerplate-removal list of `clean_merged_markdown_files`
(`src/main.py:1697`), in source order. -/
def expressionsToRemove : List (List Char) :=
  ["ULS DE SAO JOAO, E.P.E.".toList,
   "H. SAO JOAO".toList,
   "ALAMEDA PROF. HERNANI MONTEIRO".toList,
   "4200-319 PORTO".toList,
   "Tel. : 225512100  Email:".toList,
   "Tel.: 225512100".toList,
   "Processado por computador - SClínico".toList,
   "Email:".toList,
   "SÃO JOÃO".toList]

/-- One iteration of the boilerplate-removal loop: count the occurrences of
`e` in the current content and, when any are present, delete them and add
the count to the running removal counter (`src/main.py:1742-1747`). -/
def cleanStep (acc : List Char × Nat) (e : List Char) : List Char × Nat :=
  let n := countOcc e acc.1
  if 0 < n then (pyRemove e acc.1, acc.2 + n) else acc

/-- The boilerplate-removal step over a whole expression list, returning the
stripped content together with the reported removal count. -/
def removeCount (exprs : List (List Char)) (xs : List Char) : List Char × Nat :=
  exprs.foldl cleanStep (xs, 0)

/-- Content after boilerplate removal. -/
def removeExprs (exprs : List (List Char)) (xs : List Char) : List Char :=
  (removeCount exprs xs).1

/-- Python `content.split('\n')`: always non-empty, `[""]` on empty input. -/
def splitNl : List Char → List (List Char)
  | [] => [[]]
  | c :: rest =>
    if c = '\n' then [] :: splitNl rest
    else
      match splitNl rest with
      | [] => [[c]]
      | l :: ls => (c :: l) :: ls

/-- Python `'\n'.join(lines)`. -/
def joinNl : List (List Char) → List Char
  | [] => []
  | [l] => l
  | l :: l2 :: ls => l ++ '\n' :: joinNl (l2 :: ls)

/-- Python `line.lstrip(' \t')`. -/
def stripLead (l : List Char) : List Char :=
  l.dropWhile (fun c => c == ' ' || c == '\t')

/-- A line is blank when `line.strip()` is empty: every char is whitespace. -/
def isBlank (l : List Char) : Bool :=
  l.all pySpace

/-- The keep condition of the whitespace-normalization loop
(`src/main.py:1753`): keep a line when it is non-blank, or when the last
kept line exists and is non-blank.  The kept list is carried reversed. -/
def keepLine (racc : List (List Char)) (cl : List Char) : Bool :=
  !(isBlank cl) ||
    (match racc with
     | [] => false
     | last :: _ => !(isBlank last))

/-- The whitespace-normalization loop over the split lines, producing the
kept lines in reverse order (`src/main.py:1749-1754`). -/
def normRev : List (List Char) → List (List Char) → List (List Char)
  | racc, [] => racc
  | racc, line :: rest =>
    let cl := stripLead line
    if keepLine racc cl then normRev (cl :: racc) rest else normRev racc rest

/-- Whitespace normalization (`src/main.py:1748-1757`): split on newlines,
strip leading spaces/tabs, drop blank lines whose predecessor is not a kept
non-blank line, pop trailing blank lines, and re-join. -/
def wsNorm (xs : List Char) : List Char :=
  joinNl (((normRev [] (splitNl xs)).dropWhile isBlank).reverse)

/-- The full clean transform of `clean_merged_markdown_files`
(`src/main.py:1737-1757`): boilerplate removal followed by whitespace
normalization. -/
def cleanText (xs : List Char) : List Char :=
  wsNorm (removeExprs expressionsToRemove xs)

/-- The removal count reported for one merged artifact. -/
def cleanRemovals (xs : List Char) : Nat :=
  (removeCount expressionsToRemove xs).2

/-- Truthiness of `cleaned_lines and cleaned_lines[-1].strip()` for the
reversed kept-line accumulator. -/
def lastKept (racc : List (List Char)) : Bool :=
  match racc with
  | [] => false
  | last :: _ => !(isBlank last)

/-- `chain b ls` says that, processing `ls` with `b` recording whether the
previously kept line is non-blank, every line passes the keep condition. -/
def chain : Bool → List (List Char) → Prop
  | _, [] => True
  | b, l :: rest => (isBlank l = false ∨ b = true) ∧ chain (!(isBlank l)) rest

/-- `rchain racc`: the reversed accumulator shape the normalization loop
preserves — each blank entry is followed (in reversed order) by a non-blank
one, and the deepest entry is non-blank. -/
def rchain : List (List Char) → Prop
  | [] => True
  | l :: rest => (isBlank l = false ∨ lastKept rest = true) ∧ rchain rest

/-- The keep flag after processing a whole line list starting from `b`. -/
def endFlag : Bool → List (List Char) → Bool
  | b, [] => b
  | _, l :: rest => endFlag (!(isBlank l)) rest

/-- One recorded processing event: UTC timestamp, event type and an opaque
payload of key/value pairs (`src/main.py:121-125`). -/
structure LogEvent where
  ts : List Char
  etype : List Char
  payload : List (List Char × List Char)
deriving DecidableEq

/-- A per-subject log document (`subject_log.json`): version, subject name,
creation timestamp and the ordered event sequence. -/
structure SubjectLog where
  logVersion : List Char
  subject : List Char
  createdAt : List Char
  events : List LogEvent
deriving DecidableEq

/-- On-disk state of a subject's log file.  A missing file and an
unparsable file are treated identically by `load_subject_log`
(`src/main.py:103-115`). -/
inductive LogDisk where
  | present (log : SubjectLog)
  | absentOrCorrupt
deriving DecidableEq

/-- `SUBJECT_LOG_VERSION` (`src/main.py:81`). -/
def subjectLogVersion : List Char := "1.0".toList

/-- `load_subject_log` (`src/main.py:103-115`): return the stored document,
or a fresh empty log stamped with the current time when the file is missing
or unparsable. -/
def loadSubjectLog (d : LogDisk) (subject now : List Char) : SubjectLog :=
  match d with
  | .present l => l
  | .absentOrCorrupt => ⟨subjectLogVersion, subject, now, []⟩

/-- `append_subject_log` (`src/main.py:118-129`): load the current log,
append one freshly-timestamped event at the end, restamp the version and
rewrite the whole document. -/
def appendSubjectLog (d : LogDisk) (subject etype : List Char)
    (payload : List (List Char × List Char)) (now : List Char) : SubjectLog :=
  let log := loadSubjectLog d subject now
  { log with
    events := log.events ++ [⟨now, etype, payload⟩],
    logVersion := subjectLogVersion }

/-- One append request: event type, payload and the wall-clock instant. -/
structure AppendOp where
  etype : List Char
  payload : List (List Char × List Char)
  now : List Char
deriving DecidableEq

/-- A sequence of appends against the same subject directory, each one
rewriting the log file that the next one loads. -/
def runAppends (d : LogDisk) (subject : List Char) : List AppendOp → LogDisk
  | [] => d
  | op :: ops =>
    runAppends (.present (appendSubjectLog d subject op.etype op.payload op.now))
      subject ops

/-- The event sequence held on disk (empty when missing or corrupt). -/
def diskEvents (d : LogDisk) : List LogEvent :=
  match d with
  | .present l => l.events
  | .absentOrCorrupt => []

/-- One event of a `subject_history.json` document, as consumed by the
staleness scan: its type, and for `parse` events the recorded
`{file, sha256}` pairs (`src/main.py:513-521`). -/
structure HistEvent where
  etype : List Char
  files : List (List Char × List Char)
deriving DecidableEq

/-- The most recent `parse` event of a history: scan the events newest to
oldest and stop at the first `parse` (`src/main.py:514-518`). -/
def lastParseEvent (events : List HistEvent) : Option HistEvent :=
  events.reverse.find? (fun e => e.etype == "parse".toList)

/-- The recorded-digest mapping `{f['file']: f['sha256'] for f in files if
f.get('file')}`: entries with an empty name are skipped, later entries win
(`src/main.py:521`). -/
def recordedDigest (files : List (List Char × List Char)) :
    List Char → Option (List Char) :=
  files.foldl
    (fun m f => if f.1 = [] then m else fun n => if n = f.1 then some f.2 else m n)
    (fun _ => none)

/-- The per-file staleness test: the file's name is unrecorded, or its
recorded digest differs from the current one (`src/main.py:527`). -/
def fileStale (rec : List Char → Option (List Char))
    (p : List Char × List Char) : Bool :=
  match rec p.1 with
  | none => true
  | some h => !(h == p.2)

/-- `stale_subjects` restricted to one subject (`src/main.py:509-532`):
given the history events and the current `(name, digest)` snapshot of the
subject's pdf files, decide whether the subject is reported stale. -/
def isStaleSubject (events : List HistEvent)
    (current : List (List Char × List Char)) : Bool :=
  match lastParseEvent events with
  | none => false
  | some ev => current.any (fileStale (recordedDigest ev.files))

/-- The spec's reading of the recorded map: among the recorded pairs with a
non-empty name equal to `n`, the last one's digest. -/
def specRecorded (files : List (List Char × List Char)) (n : List Char) :
    Option (List Char) :=
  ((files.filter (fun f => !(f.1 == []))).reverse.find? (fun f => f.1 == n)).map
    Prod.snd

/-- The spec's staleness formula: a most recent parse event exists, and some
current file either has no recorded entry or a differing recorded digest. -/
def StaleSpec (events : List HistEvent)
    (current : List (List Char × List Char)) : Prop :=
  ∃ ev, lastParseEvent events = some ev ∧
    ∃ p ∈ current, specRecorded ev.files p.1 = none ∨
      ∃ d, specRecorded ev.files p.1 = some d ∧ d ≠ p.2

/-- Control flags of the command line (`parse_arguments`,
`src/main.py:1785-1854`).  `full` defaults to true when no mode flag is
given; that defaulting happens before `get_processing_plan` runs. -/
structure Args where
  parse_only : Bool
  merge_only : Bool
  clean_only : Bool
  full : Bool
  force : Bool
  skip_existing : Bool
deriving DecidableEq

/-- The filesystem snapshot consumed by `get_processing_plan`:
the pdf file names (glob order), whether the output dir exists, the
output-dir entry names (iterdir order), the verdict of
`check_subject_already_processed` per subject, and the size of
`<s>_merged_medical_records.md` when that file exists.  Digit tests use
`Char.isDigit`; Python's `str.isdigit` accepts further Unicode digits, which
no claim depends on. -/
structure FsState where
  pdfFiles : List (List Char)
  outputDirExists : Bool
  subjectDirs : List (List Char)
  isProcessed : List Char → Bool
  mergedFileSize : List Char → Option Nat

/-- `check_subject_already_merged` (`src/main.py:1901-1912`): the merged
artifact counts as existing only when the file exists with size strictly
greater than zero. -/
def checkMerged (fs : FsState) (subject : List Char) : Bool :=
  match fs.mergedFileSize subject with
  | some size => decide (0 < size)
  | none => false

/-- Append `f` to the file list of key `s`, keeping first-seen key order —
the Python dict build of `src/main.py:1938-1945`. -/
def insertFile (acc : List (List Char × List (List Char))) (s f : List Char) :
    List (List Char × List (List Char)) :=
  match acc with
  | [] => [(s, [f])]
  | (k, v) :: rest =>
    if k = s then (k, v ++ [f]) :: rest else (k, v) :: insertFile rest s f

/-- Group pdf files by their leading 4-digit subject key
(`src/main.py:1938-1945`); files without such a key are dropped. -/
def groupSubjects (files : List (List Char)) : List (List Char × List (List Char)) :=
  files.foldl
    (fun acc f =>
      if 4 ≤ f.length ∧ (f.take 4).all Char.isDigit then insertFile acc (f.take 4) f
      else acc)
    []

/-- `"No new PDFs found in main pdf/ folder"` (`src/main.py:1934`). -/
def noNewMsg : List Char := "No new PDFs found in main pdf/ folder".toList

/-- `f"Subject {subject} already processed"` (`src/main.py:1951`). -/
def procMsg (s : List Char) : List Char :=
  "Subject ".toList ++ s ++ " already processed".toList

/-- `f"Subject {subject} already merged"` (`src/main.py:1972`). -/
def mergedMsg (s : List Char) : List Char :=
  "Subject ".toList ++ s ++ " already merged".toList

/-- `f"Subject {subject} - reprocessing (forced)"` (`src/main.py:1955`). -/
def forceParseMsg (s : List Char) : List Char :=
  "Subject ".toList ++ s ++ " - reprocessing (forced)".toList

/-- `f"Subject {subject} - remerging (forced)"` (`src/main.py:1976`). -/
def forceMergeMsg (s : List Char) : List Char :=
  "Subject ".toList ++ s ++ " - remerging (forced)".toList

/-- The `ProcessingPlan` dictionary (`src/main.py:1919-1926`). -/
structure Plan where
  parse_pdfs : Bool
  merge_markdown : Bool
  subjects_to_parse : List (List Char × List (List Char))
  subjects_to_merge : List (List Char)
  skip_reasons : List (List Char)
  force_reasons : List (List Char)

/-- The fresh plan (`src/main.py:1919-1926`). -/
def emptyPlan : Plan := ⟨false, false, [], [], [], []⟩

/-- `is_processed and args.skip_existing and not args.force`
(`src/main.py:1950`). -/
def skipParseCond (args : Args) (fs : FsState) (s : List Char) : Bool :=
  fs.isProcessed s && args.skip_existing && !args.force

/-- `is_processed and args.force` (`src/main.py:1954`). -/
def forceParseCond (args : Args) (fs : FsState) (s : List Char) : Bool :=
  fs.isProcessed s && args.force

/-- `is_merged and args.skip_existing and not args.force`
(`src/main.py:1971`). -/
def skipMergeCond (args : Args) (fs : FsState) (d : List Char) : Bool :=
  checkMerged fs d && args.skip_existing && !args.force

/-- `is_merged and args.force` (`src/main.py:1975`). -/
def forceMergeCond (args : Args) (fs : FsState) (d : List Char) : Bool :=
  checkMerged fs d && args.force

/-- One iteration of the per-subject parse-planning loop
(`src/main.py:1947-1955`). -/
def parseStep (args : Args) (fs : FsState) (plan : Plan)
    (entry : List Char × List (List Char)) : Plan :=
  if skipParseCond args fs entry.1 then
    { plan with skip_reasons := plan.skip_reasons ++ [procMsg entry.1] }
  else
    let plan' := { plan with subjects_to_parse := plan.subjects_to_parse ++ [entry] }
    if forceParseCond args fs entry.1 then
      { plan' with force_reasons := plan'.force_reasons ++ [forceParseMsg entry.1] }
    else plan'

/-- The parse stage of `get_processing_plan` (`src/main.py:1932-1958`). -/
def parseStage (args : Args) (fs : FsState) (plan : Plan) : Plan :=
  if args.parse_only = true ∨ args.full = true then
    if fs.pdfFiles = [] ∧ args.force = false then
      { plan with skip_reasons := plan.skip_reasons ++ [noNewMsg] }
    else if fs.pdfFiles ≠ [] then
      let plan' := (groupSubjects fs.pdfFiles).foldl (parseStep args fs) plan
      { plan' with parse_pdfs := plan'.subjects_to_parse ≠ [] }
    else plan
  else plan

/-- One iteration of the per-subject merge-planning loop
(`src/main.py:1967-1976`). -/
def mergeStep (args : Args) (fs : FsState) (plan : Plan) (d : List Char) : Plan :=
  if skipMergeCond args fs d then
    { plan with skip_reasons := plan.skip_reasons ++ [mergedMsg d] }
  else
    let plan' := { plan with subjects_to_merge := plan.subjects_to_merge ++ [d] }
    if forceMergeCond args fs d then
      { plan' with force_reasons := plan'.force_reasons ++ [forceMergeMsg d] }
    else plan'

/-- The merge stage of `get_processing_plan` (`src/main.py:1960-1979`). -/
def mergeStage (args : Args) (fs : FsState) (plan : Plan) : Plan :=
  if args.merge_only = true ∨ args.full = true then
    if fs.outputDirExists = true then
      let dirs := fs.subjectDirs.filter (fun d => d.all Char.isDigit && d.length == 4)
      let plan' := dirs.foldl (mergeStep args fs) plan
      { plan' with merge_markdown := plan'.subjects_to_merge ≠ [] }
    else plan
  else plan

/-- `get_processing_plan` (`src/main.py:1915-1981`). -/
def getProcessingPlan (args : Args) (fs : FsState) : Plan :=
  mergeStage args fs (parseStage args fs emptyPlan)

/-- Closed form of the parse work list the parse stage appends. -/
def parseWorkList (args : Args) (fs : FsState) :
    List (List Char × List (List Char)) :=
  if args.parse_only = true ∨ args.full = true then
    if fs.pdfFiles = [] ∧ args.force = false then []
    else if fs.pdfFiles ≠ [] then
      (groupSubjects fs.pdfFiles).filter (fun e => !(skipParseCond args fs e.1))
    else []
  else []

/-- Closed form of the skip reasons the parse stage appends. -/
def parseSkipList (args : Args) (fs : FsState) : List (List Char) :=
  if args.parse_only = true ∨ args.full = true then
    if fs.pdfFiles = [] ∧ args.force = false then [noNewMsg]
    else if fs.pdfFiles ≠ [] then
      ((groupSubjects fs.pdfFiles).filter (fun e => skipParseCond args fs e.1)).map
        (fun e => procMsg e.1)
    else []
  else []

/-- Closed form of the force reasons the parse stage appends. -/
def parseForceList (args : Args) (fs : FsState) : List (List Char) :=
  if args.parse_only = true ∨ args.full = true then
    if fs.pdfFiles = [] ∧ args.force = false then []
    else if fs.pdfFiles ≠ [] then
      ((groupSubjects fs.pdfFiles).filter (fun e =>
        !(skipParseCond args fs e.1) && forceParseCond args fs e.1)).map
        (fun e => forceParseMsg e.1)
    else []
  else []

/-- The 4-digit directories the merge stage iterates (`src/main.py:1964`). -/
def mergeDirs (fs : FsState) : List (List Char) :=
  fs.subjectDirs.filter (fun d => d.all Char.isDigit && d.length == 4)

/-- Closed form of the merge work list the merge stage appends. -/
def mergeWorkList (args : Args) (fs : FsState) : List (List Char) :=
  if args.merge_only = true ∨ args.full = true then
    if fs.outputDirExists = true then
      (mergeDirs fs).filter (fun d => !(skipMergeCond args fs d))
    else []
  else []

/-- Closed form of the skip reasons the merge stage appends. -/
def mergeSkipList (args : Args) (fs : FsState) : List (List Char) :=
  if args.merge_only = true ∨ args.full = true then
    if fs.outputDirExists = true then
      ((mergeDirs fs).filter (fun d => skipMergeCond args fs d)).map mergedMsg
    else []
  else []

/-- Closed form of the force reasons the merge stage appends. -/
def mergeForceList (args : Args) (fs : FsState) : List (List Char) :=
  if args.merge_only = true ∨ args.full = true then
    if fs.outputDirExists = true then
      ((mergeDirs fs).filter (fun d =>
        !(skipMergeCond args fs d) && forceMergeCond args fs d)).map forceMergeMsg
    else []
  else []

/-- The four clinical document categories. -/
inductive Cat where
  | E
  | A
  | BIC
  | O
deriving DecidableEq

/-- Python `n.endswith(s)`. -/
def endsWithCh (n s : List Char) : Bool :=
  leadMatch s.reverse n.reverse

/-- `categorize_documents_by_type` suffix dispatch, in the fixed priority
order BIC, E, A, O (`src/main.py:1448-1455`); unknown suffixes classify to
`none` and are excluded. -/
def classifyName (n : List Char) : Option Cat :=
  if endsWithCh n "BIC".toList then some Cat.BIC
  else if endsWithCh n "E".toList then some Cat.E
  else if endsWithCh n "A".toList then some Cat.A
  else if endsWithCh n "O".toList then some Cat.O
  else none

deriving instance DecidableEq for Except

/-- One markdown page file `page_<num>.md`: the numeral part of its stem
and the read outcome — page text, or the caught exception's message
(`src/main.py:1487-1504`). -/
structure Page where
  num : List Char
  content : Except (List Char) (List Char)
deriving DecidableEq

/-- One parsed document folder: its name, whether a `markdown/` subfolder
exists, and the page files found by the glob, in directory order. -/
structure Folder where
  name : List Char
  hasMarkdown : Bool
  pages : List Page
deriving DecidableEq

/-- Python `int(...)` of a digit string. -/
def natOfDigits (l : List Char) : Nat :=
  l.foldl (fun a c => a * 10 + (c.toNat - 48)) 0

/-- Python `str.strip()`: drop whitespace on both ends. -/
def pyStrip (l : List Char) : List Char :=
  ((l.dropWhile pySpace).reverse.dropWhile pySpace).reverse

/-- Stable insertion keeping existing entries with a key not above `x`
before `x`. -/
def insertStable {α : Type} (le : α → α → Bool) (x : α) : List α → List α
  | [] => [x]
  | y :: ys => if le y x then y :: insertStable le x ys else x :: y :: ys

/-- A stable sort (Python `list.sort` is stable; a stable sort by a total
preorder is unique, so insertion sort realizes it). -/
def sortStable {α : Type} (le : α → α → Bool) (l : List α) : List α :=
  l.foldl (fun acc x => insertStable le x acc) []

/-- Lexicographic comparison of names by code point — Python `str <=`. -/
def lexLe : List Char → List Char → Bool
  | [], _ => true
  | _ :: _, [] => false
  | a :: as, b :: bs => if a = b then lexLe as bs else decide (a < b)

/-- The display names of the category buckets (`src/main.py:1431-1436`). -/
def catName : Cat → List Char
  | Cat.E => "Admission Notes".toList
  | Cat.A => "Release Notes".toList
  | Cat.BIC => "Death Notices".toList
  | Cat.O => "Death Certificates".toList

/-- The category code in the section header. -/
def catCode : Cat → List Char
  | Cat.E => "E".toList
  | Cat.A => "A".toList
  | Cat.BIC => "BIC".toList
  | Cat.O => "O".toList

/-- One bucket of `categorize_documents_by_type` (`src/main.py:1443-1461`):
folders with the category's suffix (the `merged` folder skipped), in
iteration order, then sorted by name. -/
def catFolders (folders : List Folder) (c : Cat) : List Folder :=
  sortStable (fun f g => lexLe f.name g.name)
    (folders.filter (fun f =>
      !(f.name == "merged".toList) && classifyName f.name == some c))

/-- The lines a single page contributes (`src/main.py:1487-1504`): page
marker, blank, stripped content or the error placeholder, blank. -/
def pageChunk (p : Page) : List (List Char) :=
  match p.content with
  | Except.ok c => ["## Page ".toList ++ p.num, [], pyStrip c, []]
  | Except.error e =>
    ["## Page ".toList ++ p.num, [],
      "*Error reading page content: ".toList ++ e ++ "*".toList, []]

/-- `merge_pages_for_document` (`src/main.py:1466-1506`): empty without a
`markdown/` folder or page files; otherwise the pages sorted by numeric
page number, each contributing its chunk, joined by newlines. -/
def mergePages (f : Folder) : List Char :=
  if f.hasMarkdown = false then []
  else
    let sorted := sortStable
      (fun p q => decide (natOfDigits p.num ≤ natOfDigits q.num)) f.pages
    if sorted = [] then []
    else joinNl (sorted.map pageChunk).flatten

/-- The lines of one document entry (`src/main.py:1563-1581`): document
header, blank, then the merged pages or the no-content placeholder. -/
def docEntry (f : Folder) : List (List Char) :=
  ["## Document: ".toList ++ f.name, []] ++
    (if mergePages f = [] then ["*No content available for this document.*".toList, []]
     else [mergePages f])

/-- The documents of one category, separated by `---` between consecutive
documents but not after the last (`src/main.py:1583-1589`). -/
def docsLines : List Folder → List (List Char)
  | [] => []
  | [f] => docEntry f
  | f :: g :: rest =>
    docEntry f ++ ([[], "---".toList, []] : List (List Char)) ++ docsLines (g :: rest)

/-- The `"=" * 80` section separator (`src/main.py:1594`). -/
def barLine : List Char := List.replicate 80 '='

/-- The section header line of a category. -/
def catHeader (c : Cat) : List Char :=
  "# ".toList ++ catName c ++ " (".toList ++ catCode c ++ ")".toList

/-- One category section (`src/main.py:1547-1596`): nothing for an empty
bucket; otherwise the section header, the documents, and the section
separator — which the code emits after every non-empty section, its own
comment notwithstanding. -/
def sectionLines (folders : List Folder) (c : Cat) : List (List Char) :=
  if catFolders folders c = [] then []
  else [catHeader c, []] ++ docsLines (catFolders folders c) ++
    [[], barLine, []]

/-- The document header block (`src/main.py:1535-1542`). -/
def headerBlock (subject ts : List Char) : List (List Char) :=
  ["# Medical Records - Subject ".toList ++ subject, [],
   "*Generated on: ".toList ++ ts ++ "*".toList, [],
   "---".toList, []]

/-- The merged artifact's line list (`src/main.py:1528-1596`), category
sections in the fixed order E, A, BIC, O. -/
def mergedLines (subject ts : List Char) (folders : List Folder) :
    List (List Char) :=
  headerBlock subject ts ++ sectionLines folders Cat.E ++
    sectionLines folders Cat.A ++ sectionLines folders Cat.BIC ++
    sectionLines folders Cat.O

/-- `total_docs` (`src/main.py:1523`). -/
def totalDocs (folders : List Folder) : Nat :=
  (catFolders folders Cat.E).length + (catFolders folders Cat.A).length +
    (catFolders folders Cat.BIC).length + (catFolders folders Cat.O).length

/-- `merge_documents_by_subject` (`src/main.py:1509-1643`): the success
flag, the artifact written (name and content, `none` when nothing is
written) and the event types appended to the subject's two logs. -/
def mergeSubject (subject ts : List Char) (folders : List Folder) :
    Bool × Option (List Char × List Char) × List (List Char) :=
  if totalDocs folders = 0 then (false, none, [])
  else
    (true,
      some (subject ++ "_merged_medical_records.md".toList,
        joinNl (mergedLines subject ts folders)),
      ["merge".toList, "merge".toList])

/-- Recognizer for the four category section headers. -/
def isSectionHeader (x : List Char) : Bool :=
  x == catHeader Cat.E || x == catHeader Cat.A ||
    x == catHeader Cat.BIC || x == catHeader Cat.O

/- ======================================================================
   Theorems
   ====================================================================== -/

theorem stripLead_idem (l : List Char) : stripLead (stripLead l) = stripLead l := by
  induction l with
  | nil => rfl
  | cons c cs ih =>
    by_cases h : (c == ' ' || c == '\t') = true
    · simpa [stripLead, List.dropWhile_cons, h] using ih
    · simp [stripLead, List.dropWhile_cons, h]

theorem dropWhile_idem {α : Type} (p : α → Bool) (l : List α) :
    (l.dropWhile p).dropWhile p = l.dropWhile p := by
  induction l with
  | nil => rfl
  | cons c cs ih =>
    by_cases h : p c = true
    · simpa [List.dropWhile_cons, h] using ih
    · simp [List.dropWhile_cons, h]

theorem keepLine_eq (racc : List (List Char)) (cl : List Char) :
    keepLine racc cl = (!(isBlank cl) || lastKept racc) := by
  cases racc <;> rfl

theorem normRev_of_chain (ls : List (List Char)) :
    ∀ racc, (∀ l ∈ ls, stripLead l = l) → chain (lastKept racc) ls →
      normRev racc ls = ls.reverse ++ racc := by
  induction ls with
  | nil => intro racc _ _; simp [normRev]
  | cons l rest ih =>
    intro racc hfix hch
    obtain ⟨h1, h2⟩ := hch
    have hl : stripLead l = l := hfix l (List.mem_cons_self l rest)
    have hkeep : keepLine racc (stripLead l) = true := by
      rw [hl, keepLine_eq]
      rcases h1 with h | h <;> simp [h]
    have hrest : ∀ x ∈ rest, stripLead x = x := fun x hx => hfix x (List.mem_cons_of_mem l hx)
    have hch' : chain (lastKept (stripLead l :: racc)) rest := by
      rw [hl]; exact h2
    simp only [normRev, hkeep, if_pos]
    rw [ih (stripLead l :: racc) hrest hch', hl]
    simp

theorem rchain_normRev (ls : List (List Char)) :
    ∀ racc, rchain racc → rchain (normRev racc ls) := by
  induction ls with
  | nil => intro racc h; exact h
  | cons l rest ih =>
    intro racc h
    by_cases hk : keepLine racc (stripLead l) = true
    · simp only [normRev, hk, if_pos]
      apply ih
      refine ⟨?_, h⟩
      rw [keepLine_eq] at hk
      rcases Bool.or_eq_true_iff.mp hk with h' | h'
      · exact Or.inl (by simpa using h')
      · exact Or.inr h'
    · simp only [normRev, hk, if_neg, Bool.not_eq_true]
      simpa [hk] using ih racc h

theorem normRev_mem (ls : List (List Char)) :
    ∀ racc l, l ∈ normRev racc ls → l ∈ racc ∨ ∃ x ∈ ls, l = stripLead x := by
  induction ls with
  | nil => intro racc l h; exact Or.inl h
  | cons y rest ih =>
    intro racc l h
    by_cases hk : keepLine racc (stripLead y) = true
    · simp only [normRev, hk, if_pos] at h
      rcases ih (stripLead y :: racc) l h with h' | ⟨x, hx, hlx⟩
      · rcases List.mem_cons.mp h' with h'' | h''
        · exact Or.inr ⟨y, List.mem_cons_self y rest, h''⟩
        · exact Or.inl h''
      · exact Or.inr ⟨x, List.mem_cons_of_mem y hx, hlx⟩
    · simp only [normRev, hk, if_neg, Bool.not_eq_true] at h
      rcases ih racc l (by simpa [hk] using h) with h' | ⟨x, hx, hlx⟩
      · exact Or.inl h'
      · exact Or.inr ⟨x, List.mem_cons_of_mem y hx, hlx⟩

theorem rchain_tail (l : List Char) (rest : List (List Char)) (h : rchain (l :: rest)) :
    rchain rest := h.2

theorem rchain_dropWhile (racc : List (List Char)) (h : rchain racc) :
    rchain (racc.dropWhile isBlank) := by
  induction racc with
  | nil => exact h
  | cons l rest ih =>
    by_cases hb : isBlank l = true
    · simpa [List.dropWhile_cons, hb] using ih h.2
    · simpa [List.dropWhile_cons, hb] using h

theorem endFlag_snoc (xs : List (List Char)) :
    ∀ b l, endFlag b (xs ++ [l]) = !(isBlank l) := by
  induction xs with
  | nil => intro b l; rfl
  | cons x rest ih => intro b l; simpa [endFlag] using ih (!(isBlank x)) l

theorem chain_snoc (xs : List (List Char)) :
    ∀ b l, chain b xs → (isBlank l = false ∨ endFlag b xs = true) →
      chain b (xs ++ [l]) := by
  induction xs with
  | nil =>
    intro b l _ h2
    exact ⟨by simpa [endFlag] using h2, trivial⟩
  | cons x rest ih =>
    intro b l h h2
    exact ⟨h.1, ih (!(isBlank x)) l h.2 (by simpa [endFlag] using h2)⟩

theorem endFlag_reverse (racc : List (List Char)) :
    endFlag false racc.reverse = lastKept racc := by
  cases racc with
  | nil => rfl
  | cons l rest => simp [lastKept, List.reverse_cons, endFlag_snoc]

theorem chain_reverse_of_rchain (racc : List (List Char)) (h : rchain racc) :
    chain false racc.reverse := by
  induction racc with
  | nil => trivial
  | cons l rest ih =>
    rw [List.reverse_cons]
    refine chain_snoc rest.reverse false l (ih h.2) ?_
    rcases h.1 with h' | h'
    · exact Or.inl h'
    · exact Or.inr (by rw [endFlag_reverse]; exact h')

theorem splitNl_ne_nil (xs : List Char) : splitNl xs ≠ [] := by
  cases xs with
  | nil => simp [splitNl]
  | cons c rest =>
    by_cases h : c = '\n'
    · simp [splitNl, h]
    · simp only [splitNl, h, if_neg]
      cases hs : splitNl rest <;> simp

theorem splitNl_cons_ne (c : Char) (rest : List Char) (h : ¬ c = '\n') :
    splitNl (c :: rest) =
      (c :: (splitNl rest).headI) :: (splitNl rest).tail := by
  simp only [splitNl, h, if_neg]
  cases hs : splitNl rest with
  | nil => exact absurd hs (splitNl_ne_nil rest)
  | cons m ms => rfl

theorem splitNl_no_nl (xs : List Char) : ∀ l ∈ splitNl xs, '\n' ∉ l := by
  induction xs with
  | nil => intro l hl; simp [splitNl] at hl; simp [hl]
  | cons c rest ih =>
    intro l hl
    by_cases h : c = '\n'
    · simp only [splitNl, h, if_pos] at hl
      rcases List.mem_cons.mp hl with h' | h'
      · simp [h']
      · exact ih l h'
    · rw [splitNl_cons_ne c rest h] at hl
      cases hs : splitNl rest with
      | nil => exact absurd hs (splitNl_ne_nil rest)
      | cons m ms =>
        simp only [hs, List.headI, List.tail_cons] at hl
        rcases List.mem_cons.mp hl with h' | h'
        · subst h'
          intro hmem
          rcases List.mem_cons.mp hmem with h'' | h''
          · exact h h''.symm
          · exact ih m (by rw [hs]; exact List.mem_cons_self m ms) h''
        · exact ih l (by rw [hs]; exact List.mem_cons_of_mem m h')

theorem joinNl_cons_cons (l m : List Char) (ms : List (List Char)) :
    joinNl (l :: m :: ms) = l ++ '\n' :: joinNl (m :: ms) := rfl

theorem joinNl_cons (l : List Char) (ls : List (List Char)) (h : ls ≠ []) :
    joinNl (l :: ls) = l ++ '\n' :: joinNl ls := by
  cases ls with
  | nil => exact absurd rfl h
  | cons m ms => rfl

theorem joinNl_splitNl (xs : List Char) : joinNl (splitNl xs) = xs := by
  induction xs with
  | nil => rfl
  | cons c rest ih =>
    by_cases h : c = '\n'
    · subst h
      have hsp : splitNl ('\n' :: rest) = [] :: splitNl rest := by simp [splitNl]
      rw [hsp, joinNl_cons [] (splitNl rest) (splitNl_ne_nil rest), ih]
      rfl
    · rw [splitNl_cons_ne c rest h]
      cases hs : splitNl rest with
      | nil => exact absurd hs (splitNl_ne_nil rest)
      | cons m ms =>
        rw [hs] at ih
        simp only [List.headI, List.tail_cons]
        cases ms with
        | nil =>
          simp only [joinNl] at ih ⊢
          rw [ih]
        | cons m2 ms2 =>
          rw [joinNl_cons_cons] at ih ⊢
          simp only [List.cons_append]
          rw [ih]

theorem splitNl_no_nl_id (l : List Char) (h : '\n' ∉ l) : splitNl l = [l] := by
  induction l with
  | nil => rfl
  | cons c rest ih =>
    have hc : ¬ c = '\n' := fun hc => h (by simp [hc])
    rw [splitNl_cons_ne c rest hc, ih (fun hm => h (List.mem_cons_of_mem c hm))]
    rfl

theorem splitNl_append_nl (l t : List Char) (h : '\n' ∉ l) :
    splitNl (l ++ '\n' :: t) = l :: splitNl t := by
  induction l with
  | nil => simp [splitNl]
  | cons c rest ih =>
    have hc : ¬ c = '\n' := fun hc => h (by simp [hc])
    have ih' := ih (fun hm => h (List.mem_cons_of_mem c hm))
    rw [List.cons_append, splitNl_cons_ne c (rest ++ '\n' :: t) hc, ih']
    rfl

theorem splitNl_joinNl (ls : List (List Char)) (h : ls ≠ [])
    (h2 : ∀ l ∈ ls, '\n' ∉ l) : splitNl (joinNl ls) = ls := by
  induction ls with
  | nil => exact absurd rfl h
  | cons l rest ih =>
    cases rest with
    | nil => exact splitNl_no_nl_id l (h2 l (List.mem_cons_self l []))
    | cons m ms =>
      rw [joinNl_cons_cons,
        splitNl_append_nl l (joinNl (m :: ms)) (h2 l (List.mem_cons_self l (m :: ms))),
        ih (by simp) (fun x hx => h2 x (List.mem_cons_of_mem l hx))]

theorem wsNorm_idem (xs : List Char) : wsNorm (wsNorm xs) = wsNorm xs := by
  by_cases hne : ((normRev [] (splitNl xs)).dropWhile isBlank).reverse = []
  · have h1 : wsNorm xs = [] := by rw [wsNorm, hne]; rfl
    rw [h1]
    rfl
  · have hfix : ∀ l ∈ ((normRev [] (splitNl xs)).dropWhile isBlank).reverse,
        stripLead l = l := by
      intro l hl
      rw [List.mem_reverse] at hl
      have hl2 : l ∈ normRev [] (splitNl xs) :=
        (List.dropWhile_sublist isBlank).subset hl
      rcases normRev_mem (splitNl xs) [] l hl2 with h | ⟨x, _, hlx⟩
      · simp at h
      · rw [hlx]; exact stripLead_idem x
    have hnl : ∀ l ∈ ((normRev [] (splitNl xs)).dropWhile isBlank).reverse,
        '\n' ∉ l := by
      intro l hl
      rw [List.mem_reverse] at hl
      have hl2 : l ∈ normRev [] (splitNl xs) :=
        (List.dropWhile_sublist isBlank).subset hl
      rcases normRev_mem (splitNl xs) [] l hl2 with h | ⟨x, hx, hlx⟩
      · simp at h
      · intro hmem
        rw [hlx] at hmem
        exact splitNl_no_nl xs x hx
          ((List.dropWhile_sublist (fun c => c == ' ' || c == '\t')).subset hmem)
    have hch : chain false ((normRev [] (splitNl xs)).dropWhile isBlank).reverse :=
      chain_reverse_of_rchain _
        (rchain_dropWhile _ (rchain_normRev (splitNl xs) [] trivial))
    show joinNl (((normRev []
        (splitNl (joinNl (((normRev [] (splitNl xs)).dropWhile
          isBlank).reverse)))).dropWhile isBlank).reverse) =
      joinNl (((normRev [] (splitNl xs)).dropWhile isBlank).reverse)
    rw [splitNl_joinNl _ hne hnl, normRev_of_chain _ [] hfix hch,
      List.append_nil, List.reverse_reverse, dropWhile_idem]

theorem leadMatch_iff (pat : List Char) :
    ∀ xs, leadMatch pat xs = true ↔ ∃ t, xs = pat ++ t := by
  induction pat with
  | nil =>
    intro xs
    simp only [leadMatch, List.nil_append, true_iff]
    exact ⟨xs, rfl⟩
  | cons p ps ih =>
    intro xs
    cases xs with
    | nil =>
      simp only [leadMatch]
      constructor
      · intro h; exact absurd h (by decide)
      · rintro ⟨t, ht⟩; exact (List.cons_ne_nil p (ps ++ t) ht.symm).elim
    | cons x xs' =>
      constructor
      · intro h
        simp only [leadMatch, Bool.and_eq_true, beq_iff_eq] at h
        obtain ⟨he, hm⟩ := h
        obtain ⟨t, rfl⟩ := (ih xs').mp hm
        subst he
        exact ⟨t, rfl⟩
      · rintro ⟨t, ht⟩
        injection ht with h1 h2
        simp only [leadMatch, Bool.and_eq_true, beq_iff_eq]
        exact ⟨h1.symm, (ih xs').mpr ⟨t, h2⟩⟩

theorem occursIn_iff (pat : List Char) :
    ∀ xs, occursIn pat xs = true ↔ ∃ a b, xs = a ++ pat ++ b := by
  intro xs
  induction xs with
  | nil =>
    simp only [occursIn]
    rw [leadMatch_iff]
    constructor
    · rintro ⟨t, ht⟩; exact ⟨[], t, ht⟩
    · rintro ⟨a, b, h⟩
      obtain ⟨h1, _⟩ := List.append_eq_nil.mp h.symm
      obtain ⟨_, h2⟩ := List.append_eq_nil.mp h1
      exact ⟨[], by rw [h2]; rfl⟩
  | cons c rest ih =>
    simp only [occursIn, Bool.or_eq_true]
    rw [leadMatch_iff, ih]
    constructor
    · rintro (⟨t, ht⟩ | ⟨a, b, hab⟩)
      · exact ⟨[], t, ht⟩
      · exact ⟨c :: a, b, by rw [hab]; rfl⟩
    · rintro ⟨a, b, hab⟩
      cases a with
      | nil => exact Or.inl ⟨b, by simpa using hab⟩
      | cons a0 a' =>
        right
        injection hab with h1 h2
        exact ⟨a', b, h2⟩

theorem occursIn_mono (pat xs u v : List Char) (h : occursIn pat xs = true) :
    occursIn pat (u ++ xs ++ v) = true := by
  rw [occursIn_iff] at h ⊢
  obtain ⟨a, b, rfl⟩ := h
  exact ⟨u ++ a, b ++ v, by simp⟩

theorem mem_joinNl_parts (ls : List (List Char)) (l : List Char) (h : l ∈ ls) :
    ∃ u v, joinNl ls = u ++ l ++ v := by
  induction ls with
  | nil => simp at h
  | cons x rest ih =>
    rcases List.mem_cons.mp h with h' | h'
    · subst h'
      cases rest with
      | nil => exact ⟨[], [], by simp [joinNl]⟩
      | cons m ms =>
        exact ⟨[], '\n' :: joinNl (m :: ms), by rw [joinNl_cons_cons]; simp⟩
    · obtain ⟨u, v, huv⟩ := ih h'
      cases rest with
      | nil => simp at h'
      | cons m ms =>
        exact ⟨x ++ '\n' :: u, v, by rw [joinNl_cons_cons, huv]; simp⟩

theorem sepHelper (ps : List Char) :
    ∀ b x y : List Char, ∀ c : Char, c ∉ ps → ps ++ b = x ++ c :: y →
      ∃ t, x = ps ++ t := by
  induction ps with
  | nil => intro b x y c _ _; exact ⟨x, rfl⟩
  | cons p ps' ih =>
    intro b x y c hc h
    cases x with
    | nil =>
      injection h with h1 h2
      exact absurd (by rw [← h1]; exact List.mem_cons_self p ps') hc
    | cons q x' =>
      injection h with h1 h2
      obtain ⟨t, ht⟩ := ih b x' y c (fun hm => hc (List.mem_cons_of_mem p hm)) h2
      refine ⟨t, ?_⟩
      rw [ht, ← h1]
      rfl

theorem splitAtSep (pat : List Char) (c : Char) (hp : pat ≠ []) (hc : c ∉ pat) :
    ∀ x y : List Char, occursIn pat (x ++ c :: y) = true →
      occursIn pat x = true ∨ occursIn pat y = true := by
  intro x
  induction x with
  | nil =>
    intro y h
    rw [occursIn_iff] at h
    obtain ⟨a, b, hab⟩ := h
    cases a with
    | nil =>
      cases pat with
      | nil => exact absurd rfl hp
      | cons p ps =>
        simp only [List.nil_append] at hab
        injection hab with h1 h2
        exact absurd (by rw [h1]; exact List.mem_cons_self p ps) hc
    | cons a0 a' =>
      simp only [List.nil_append] at hab
      injection hab with h1 h2
      exact Or.inr ((occursIn_iff pat y).mpr ⟨a', b, h2⟩)
  | cons d x' ih =>
    intro y h
    rw [occursIn_iff] at h
    obtain ⟨a, b, hab⟩ := h
    cases a with
    | nil =>
      cases pat with
      | nil => exact absurd rfl hp
      | cons p ps =>
        simp only [List.nil_append, List.cons_append] at hab
        injection hab with h1 h2
        obtain ⟨t, ht⟩ :=
          sepHelper ps b x' y c (fun hm => hc (List.mem_cons_of_mem p hm)) h2.symm
        refine Or.inl ((occursIn_iff _ _).mpr ⟨[], t, ?_⟩)
        rw [ht, h1]
        rfl
    | cons a0 a' =>
      simp only [List.cons_append] at hab
      injection hab with h1 h2
      rcases ih y ((occursIn_iff _ _).mpr ⟨a', b, h2⟩) with h' | h'
      · refine Or.inl ?_
        rw [occursIn_iff] at h' ⊢
        obtain ⟨u, v, huv⟩ := h'
        exact ⟨d :: u, v, by rw [huv]; rfl⟩
      · exact Or.inr h'

theorem occursIn_joinNl (pat : List Char) (hp : pat ≠ []) (hnl : '\n' ∉ pat) :
    ∀ ls, occursIn pat (joinNl ls) = true → ∃ l ∈ ls, occursIn pat l = true := by
  intro ls
  induction ls with
  | nil =>
    intro h
    rw [occursIn_iff] at h
    obtain ⟨a, b, hab⟩ := h
    obtain ⟨h1, _⟩ := List.append_eq_nil.mp hab.symm
    exact absurd (List.append_eq_nil.mp h1).2 hp
  | cons l rest ih =>
    intro h
    cases rest with
    | nil => exact ⟨l, List.mem_cons_self l [], by simpa [joinNl] using h⟩
    | cons m ms =>
      rw [joinNl_cons_cons] at h
      rcases splitAtSep pat '\n' hp hnl l (joinNl (m :: ms)) h with h' | h'
      · exact ⟨l, List.mem_cons_self _ _, h'⟩
      · obtain ⟨x, hx, hox⟩ := ih h'
        exact ⟨x, List.mem_cons_of_mem l hx, hox⟩

theorem occursIn_wsNorm (pat ys : List Char) (hp : pat ≠ []) (hnl : '\n' ∉ pat)
    (h : occursIn pat (wsNorm ys) = true) : occursIn pat ys = true := by
  obtain ⟨l, hl, hol⟩ := occursIn_joinNl pat hp hnl _ h
  rw [List.mem_reverse] at hl
  have hl2 : l ∈ normRev [] (splitNl ys) := (List.dropWhile_sublist isBlank).subset hl
  rcases normRev_mem (splitNl ys) [] l hl2 with h' | ⟨x, hx, hlx⟩
  · simp at h'
  · subst hlx
    have hox : occursIn pat x = true := by
      have hx2 := List.takeWhile_append_dropWhile (fun c => c == ' ' || c == '\t') x
      have hmono := occursIn_mono pat (stripLead x)
        (x.takeWhile (fun c => c == ' ' || c == '\t')) [] hol
      rw [List.append_nil] at hmono
      simp only [stripLead] at hmono
      rw [hx2] at hmono
      exact hmono
    obtain ⟨u, v, huv⟩ := mem_joinNl_parts (splitNl ys) x hx
    have hys : ys = u ++ x ++ v := by rw [← joinNl_splitNl ys, huv]
    rw [hys]
    exact occursIn_mono pat x u v hox

theorem pyRemove_of_not_occurs (pat : List Char) :
    ∀ xs, occursIn pat xs = false → pyRemove pat xs = xs := by
  intro xs
  induction xs with
  | nil => intro _; rfl
  | cons c cs ih =>
    intro h
    simp only [occursIn, Bool.or_eq_false_iff] at h
    obtain ⟨h1, h2⟩ := h
    show pyRemoveAux pat 0 (c :: cs) = c :: cs
    rw [pyRemoveAux, if_neg]
    · exact congrArg (c :: ·) (ih h2)
    · rintro ⟨_, h4⟩
      rw [h1] at h4
      exact Bool.false_ne_true h4

theorem countOcc_of_not_occurs (pat : List Char) :
    ∀ xs, occursIn pat xs = false → countOcc pat xs = 0 := by
  intro xs
  induction xs with
  | nil => intro _; rfl
  | cons c cs ih =>
    intro h
    simp only [occursIn, Bool.or_eq_false_iff] at h
    obtain ⟨h1, h2⟩ := h
    show countOccAux pat 0 (c :: cs) = 0
    rw [countOccAux, if_neg]
    · exact ih h2
    · rintro ⟨_, h4⟩
      rw [h1] at h4
      exact Bool.false_ne_true h4

theorem pyRemove_of_count_zero (pat : List Char) :
    ∀ xs, countOcc pat xs = 0 → pyRemove pat xs = xs := by
  intro xs
  induction xs with
  | nil => intro _; rfl
  | cons c cs ih =>
    intro h
    show pyRemoveAux pat 0 (c :: cs) = c :: cs
    by_cases hm : pat ≠ [] ∧ leadMatch pat (c :: cs) = true
    · exfalso
      have : countOcc pat (c :: cs) = countOccAux pat (pat.length - 1) cs + 1 := by
        show countOccAux pat 0 (c :: cs) = _
        rw [countOccAux, if_pos hm]
      rw [this] at h
      exact Nat.succ_ne_zero _ h
    · rw [pyRemoveAux, if_neg hm]
      have hcs : countOcc pat cs = 0 := by
        have : countOcc pat (c :: cs) = countOcc pat cs := by
          show countOccAux pat 0 (c :: cs) = _
          rw [countOccAux, if_neg hm]
          rfl
        rw [this] at h
        exact h
      exact congrArg (c :: ·) (ih hcs)

theorem cleanStep_eq (xs : List Char) (m : Nat) (e : List Char) :
    cleanStep (xs, m) e = (pyRemove e xs, m + countOcc e xs) := by
  show (if 0 < countOcc e xs then (pyRemove e xs, m + countOcc e xs) else (xs, m)) = _
  by_cases h : 0 < countOcc e xs
  · rw [if_pos h]
  · rw [if_neg h]
    have h0 : countOcc e xs = 0 := by omega
    rw [pyRemove_of_count_zero e xs h0, h0]
    rfl

theorem foldl_cleanStep_shift (exprs : List (List Char)) :
    ∀ xs m, exprs.foldl cleanStep (xs, m) =
      ((removeCount exprs xs).1, m + (removeCount exprs xs).2) := by
  induction exprs with
  | nil => intro xs m; simp [removeCount]
  | cons e rest ih =>
    intro xs m
    have hrc : removeCount (e :: rest) xs = rest.foldl cleanStep (cleanStep (xs, 0) e) := rfl
    rw [List.foldl_cons, cleanStep_eq, ih]
    rw [hrc, cleanStep_eq, ih (pyRemove e xs) (0 + countOcc e xs)]
    simp only [Prod.mk.injEq, true_and]
    omega

theorem removeExprs_cons (e : List Char) (exprs : List (List Char)) (xs : List Char) :
    removeExprs (e :: exprs) xs = removeExprs exprs (pyRemove e xs) := by
  show (List.foldl cleanStep (cleanStep (xs, 0) e) exprs).1 = _
  rw [cleanStep_eq, foldl_cleanStep_shift]
  rfl

theorem removeCount_snd_cons (e : List Char) (exprs : List (List Char)) (xs : List Char) :
    (removeCount (e :: exprs) xs).2 =
      countOcc e xs + (removeCount exprs (pyRemove e xs)).2 := by
  show (List.foldl cleanStep (cleanStep (xs, 0) e) exprs).2 = _
  rw [cleanStep_eq, foldl_cleanStep_shift]
  omega

theorem removeExprs_of_absent (exprs : List (List Char)) :
    ∀ xs, (∀ e ∈ exprs, occursIn e xs = false) → removeExprs exprs xs = xs := by
  induction exprs with
  | nil => intro xs _; rfl
  | cons e rest ih =>
    intro xs h
    rw [removeExprs_cons, pyRemove_of_not_occurs e xs (h e (List.mem_cons_self e rest))]
    exact ih xs (fun e' he' => h e' (List.mem_cons_of_mem e he'))

theorem removeCount_snd_eq_sum (exprs : List (List Char)) :
    ∀ xs, (removeCount exprs xs).2 =
      ((List.range exprs.length).map
        (fun i => countOcc (exprs.getD i []) (removeExprs (exprs.take i) xs))).sum := by
  induction exprs with
  | nil => intro xs; simp [removeCount]
  | cons e rest ih =>
    intro xs
    rw [removeCount_snd_cons, List.length_cons, List.range_succ_eq_map]
    simp only [List.map_cons, List.map_map, List.sum_cons]
    congr 1
    rw [ih (pyRemove e xs)]
    congr 1
    apply List.map_congr_left
    intro i _
    simp only [Function.comp_apply, List.getD_cons_succ, List.take_succ_cons,
      removeExprs_cons]

theorem exprs_wf : ∀ e ∈ expressionsToRemove, e ≠ [] ∧ '\n' ∉ e := by decide

/-- C8.  The event log is append-only: starting from any stored log, a
sequence of appends yields exactly the stored event sequence extended, in
order, by one freshly-stamped event per append — prior events are preserved
as a prefix, never dropped or reordered, and each load-then-append adds
exactly one event at the end. -/
theorem log_append_only (l : SubjectLog) (subject : List Char) (ops : List AppendOp) :
    diskEvents (runAppends (LogDisk.present l) subject ops) =
      l.events ++ ops.map (fun op => LogEvent.mk op.now op.etype op.payload) := by
  induction ops generalizing l with
  | nil => simp [runAppends, diskEvents]
  | cons op rest ih =>
    show diskEvents (runAppends
      (.present (appendSubjectLog (.present l) subject op.etype op.payload op.now))
      subject rest) = _
    rw [show appendSubjectLog (.present l) subject op.etype op.payload op.now =
        { l with
          events := l.events ++ [⟨op.now, op.etype, op.payload⟩],
          logVersion := subjectLogVersion } from rfl]
    rw [ih]
    simp

theorem recordedDigest_eq_spec (files : List (List Char × List Char)) (n : List Char) :
    recordedDigest files n = specRecorded files n := by
  induction files using List.reverseRecOn with
  | nil => rfl
  | append_singleton fs f ih =>
    have hL : recordedDigest (fs ++ [f]) n =
        if f.1 = [] then recordedDigest fs n
        else if n = f.1 then some f.2 else recordedDigest fs n := by
      unfold recordedDigest
      rw [List.foldl_append]
      simp only [List.foldl_cons, List.foldl_nil]
      by_cases h1 : f.1 = []
      · rw [if_pos h1, if_pos h1]
      · rw [if_neg h1, if_neg h1]
    rw [hL]
    unfold specRecorded
    rw [List.filter_append]
    by_cases h1 : f.1 = []
    · rw [if_pos h1]
      have hb : (!(f.1 == ([] : List Char))) = false := by rw [h1]; rfl
      have hf : List.filter (fun f' => !(f'.1 == [])) [f] = [] := by
        rw [List.filter_singleton, hb]
        rfl
      rw [hf, List.append_nil]
      exact ih
    · rw [if_neg h1]
      have hb : (!(f.1 == ([] : List Char))) = true := by
        rw [Bool.not_eq_true', beq_eq_false_iff_ne]
        exact h1
      have hf : List.filter (fun f' => !(f'.1 == [])) [f] = [f] := by
        rw [List.filter_singleton, hb]
        rfl
      rw [hf, List.reverse_append, List.reverse_singleton, List.singleton_append]
      by_cases h2 : n = f.1
      · rw [if_pos h2, List.find?_cons_of_pos _ (by simp [h2])]
        rfl
      · rw [if_neg h2,
          List.find?_cons_of_neg _ (by simp [beq_iff_eq]; exact fun h => h2 h.symm)]
        exact ih

/-- C2.  The staleness check is true exactly when the subject has a most
recent `parse` event and some currently present file either has no recorded
entry (entries with an empty name never count) or a recorded digest
differing from its current digest; with no parse event the subject is never
reported stale. -/
theorem stale_iff_spec (events : List HistEvent)
    (current : List (List Char × List Char)) :
    (isStaleSubject events current = true ↔ StaleSpec events current) ∧
    (lastParseEvent events = none → isStaleSubject events current = false) := by
  constructor
  · unfold isStaleSubject StaleSpec
    cases hlp : lastParseEvent events with
    | none => simp
    | some ev =>
      rw [List.any_eq_true]
      constructor
      · rintro ⟨p, hp, hstale⟩
        refine ⟨ev, rfl, p, hp, ?_⟩
        unfold fileStale at hstale
        rw [← recordedDigest_eq_spec]
        cases hrec : recordedDigest ev.files p.1 with
        | none => exact Or.inl rfl
        | some dg =>
          rw [hrec] at hstale
          simp only [Bool.not_eq_true'] at hstale
          exact Or.inr ⟨dg, rfl, by simpa using hstale⟩
      · rintro ⟨ev', hev', p, hp, hcond⟩
        injection hev' with hee
        subst hee
        refine ⟨p, hp, ?_⟩
        unfold fileStale
        rw [← recordedDigest_eq_spec] at hcond
        rcases hcond with hnone | ⟨d, hd, hne⟩
        · rw [hnone]
        · rw [hd]
          simp [hne]
  · intro h
    unfold isStaleSubject
    rw [h]

theorem foldl_parseStep (args : Args) (fs : FsState) :
    ∀ (entries : List (List Char × List (List Char))) (plan : Plan),
      entries.foldl (parseStep args fs) plan =
        { plan with
          subjects_to_parse := plan.subjects_to_parse ++
            entries.filter (fun e => !(skipParseCond args fs e.1)),
          skip_reasons := plan.skip_reasons ++
            (entries.filter (fun e => skipParseCond args fs e.1)).map
              (fun e => procMsg e.1),
          force_reasons := plan.force_reasons ++
            (entries.filter (fun e =>
              !(skipParseCond args fs e.1) && forceParseCond args fs e.1)).map
              (fun e => forceParseMsg e.1) } := by
  intro entries
  induction entries with
  | nil => intro plan; simp
  | cons e rest ih =>
    intro plan
    rw [List.foldl_cons]
    by_cases h1 : skipParseCond args fs e.1 = true
    · have hstep : parseStep args fs plan e =
          { plan with skip_reasons := plan.skip_reasons ++ [procMsg e.1] } := by
        unfold parseStep
        rw [if_pos h1]
      rw [hstep, ih]
      simp [List.filter_cons, h1]
    · by_cases h2 : forceParseCond args fs e.1 = true
      · have hstep : parseStep args fs plan e =
            { plan with
              subjects_to_parse := plan.subjects_to_parse ++ [e],
              force_reasons := plan.force_reasons ++ [forceParseMsg e.1] } := by
          unfold parseStep
          rw [if_neg h1, if_pos h2]
        rw [hstep, ih]
        simp [List.filter_cons, h1, h2]
      · have hstep : parseStep args fs plan e =
            { plan with subjects_to_parse := plan.subjects_to_parse ++ [e] } := by
          unfold parseStep
          rw [if_neg h1, if_neg h2]
        rw [hstep, ih]
        simp [List.filter_cons, h1, h2]

theorem foldl_mergeStep (args : Args) (fs : FsState) :
    ∀ (dirs : List (List Char)) (plan : Plan),
      dirs.foldl (mergeStep args fs) plan =
        { plan with
          subjects_to_merge := plan.subjects_to_merge ++
            dirs.filter (fun d => !(skipMergeCond args fs d)),
          skip_reasons := plan.skip_reasons ++
            (dirs.filter (fun d => skipMergeCond args fs d)).map mergedMsg,
          force_reasons := plan.force_reasons ++
            (dirs.filter (fun d =>
              !(skipMergeCond args fs d) && forceMergeCond args fs d)).map
              forceMergeMsg } := by
  intro dirs
  induction dirs with
  | nil => intro plan; simp
  | cons d rest ih =>
    intro plan
    rw [List.foldl_cons]
    by_cases h1 : skipMergeCond args fs d = true
    · have hstep : mergeStep args fs plan d =
          { plan with skip_reasons := plan.skip_reasons ++ [mergedMsg d] } := by
        unfold mergeStep
        rw [if_pos h1]
      rw [hstep, ih]
      simp [List.filter_cons, h1]
    · by_cases h2 : forceMergeCond args fs d = true
      · have hstep : mergeStep args fs plan d =
            { plan with
              subjects_to_merge := plan.subjects_to_merge ++ [d],
              force_reasons := plan.force_reasons ++ [forceMergeMsg d] } := by
          unfold mergeStep
          rw [if_neg h1, if_pos h2]
        rw [hstep, ih]
        simp [List.filter_cons, h1, h2]
      · have hstep : mergeStep args fs plan d =
            { plan with subjects_to_merge := plan.subjects_to_merge ++ [d] } := by
          unfold mergeStep
          rw [if_neg h1, if_neg h2]
        rw [hstep, ih]
        simp [List.filter_cons, h1, h2]

theorem parseStage_empty (args : Args) (fs : FsState) :
    parseStage args fs emptyPlan =
      { parse_pdfs := decide (parseWorkList args fs ≠ []),
        merge_markdown := false,
        subjects_to_parse := parseWorkList args fs,
        subjects_to_merge := [],
        skip_reasons := parseSkipList args fs,
        force_reasons := parseForceList args fs } := by
  unfold parseStage parseWorkList parseSkipList parseForceList
  by_cases hmode : args.parse_only = true ∨ args.full = true
  · rw [if_pos hmode, if_pos hmode, if_pos hmode, if_pos hmode]
    by_cases h1 : fs.pdfFiles = [] ∧ args.force = false
    · rw [if_pos h1, if_pos h1, if_pos h1, if_pos h1]
      rfl
    · rw [if_neg h1, if_neg h1, if_neg h1, if_neg h1]
      by_cases h2 : fs.pdfFiles ≠ []
      · rw [if_pos h2, if_pos h2, if_pos h2, if_pos h2, foldl_parseStep]
        simp [emptyPlan]
      · rw [if_neg h2, if_neg h2, if_neg h2, if_neg h2]
        rfl
  · rw [if_neg hmode, if_neg hmode, if_neg hmode, if_neg hmode]
    rfl

theorem getPlan_eq (args : Args) (fs : FsState) :
    getProcessingPlan args fs =
      { parse_pdfs := decide (parseWorkList args fs ≠ []),
        merge_markdown := decide (mergeWorkList args fs ≠ []),
        subjects_to_parse := parseWorkList args fs,
        subjects_to_merge := mergeWorkList args fs,
        skip_reasons := parseSkipList args fs ++ mergeSkipList args fs,
        force_reasons := parseForceList args fs ++ mergeForceList args fs } := by
  unfold getProcessingPlan
  rw [parseStage_empty]
  unfold mergeStage mergeWorkList mergeSkipList mergeForceList
  by_cases hmode : args.merge_only = true ∨ args.full = true
  · rw [if_pos hmode, if_pos hmode, if_pos hmode, if_pos hmode]
    by_cases hdir : fs.outputDirExists = true
    · rw [if_pos hdir, if_pos hdir, if_pos hdir, if_pos hdir]
      dsimp only
      rw [foldl_mergeStep]
      simp [mergeDirs]
    · rw [if_neg hdir, if_neg hdir, if_neg hdir, if_neg hdir]
      simp
  · rw [if_neg hmode, if_neg hmode, if_neg hmode, if_neg hmode]
    simp

theorem subjMsg_ne_noNew (s B : List Char) :
    "Subject ".toList ++ s ++ B ≠ noNewMsg := by
  intro h
  rw [show ("Subject ".toList : List Char) = 'S' :: "ubject ".toList from rfl] at h
  rw [List.cons_append, List.cons_append] at h
  unfold noNewMsg at h
  rw [show ("No new PDFs found in main pdf/ folder".toList : List Char) =
      'N' :: "o new PDFs found in main pdf/ folder".toList from rfl] at h
  injection h with h1 _
  exact absurd h1 (by decide)

theorem subjMsg_inj {s t B : List Char}
    (h : "Subject ".toList ++ s ++ B = "Subject ".toList ++ t ++ B) : s = t := by
  rw [List.append_assoc, List.append_assoc] at h
  exact List.append_cancel_right (List.append_cancel_left h)

theorem appendSuffix_eq {s t B C : List Char} (h : s ++ B = t ++ C)
    (hlen : C.length ≤ B.length) : C = B.drop (B.length - C.length) := by
  have hl : s.length + B.length = t.length + C.length := by
    have hc := congrArg List.length h
    simpa using hc
  have hd := congrArg (List.drop t.length) h
  rw [List.drop_left] at hd
  rw [show t.length = s.length + (B.length - C.length) from by omega] at hd
  rw [List.drop_append] at hd
  exact hd.symm

theorem procMsg_ne_mergedMsg (s t : List Char) : procMsg s ≠ mergedMsg t := by
  intro h
  unfold procMsg mergedMsg at h
  rw [List.append_assoc, List.append_assoc] at h
  have h' := List.append_cancel_left h
  have h2 := appendSuffix_eq h' (by decide)
  exact absurd h2 (by decide)

theorem mem_parseWork (args : Args) (fs : FsState) (s : List Char)
    (h : s ∈ (parseWorkList args fs).map Prod.fst) :
    skipParseCond args fs s = false := by
  unfold parseWorkList at h
  split at h
  · split at h
    · simp at h
    · split at h
      · rw [List.mem_map] at h
        obtain ⟨e, he, rfl⟩ := h
        have h2 := (List.mem_filter.mp he).2
        simpa using h2
      · simp at h
  · simp at h

theorem procMsg_mem_parseSkip (args : Args) (fs : FsState) (s : List Char)
    (h : procMsg s ∈ parseSkipList args fs) :
    skipParseCond args fs s = true := by
  unfold parseSkipList at h
  split at h
  · split at h
    · rw [List.mem_singleton] at h
      exact absurd h (subjMsg_ne_noNew s ((" already processed").toList))
    · split at h
      · rw [List.mem_map] at h
        obtain ⟨e, he, heq⟩ := h
        have he2 := (List.mem_filter.mp he).2
        have hs : e.1 = s := subjMsg_inj heq
        rw [← hs]
        exact he2
      · simp at h
  · simp at h

theorem procMsg_not_mem_mergeSkip (args : Args) (fs : FsState) (s : List Char) :
    procMsg s ∉ mergeSkipList args fs := by
  intro h
  unfold mergeSkipList at h
  split at h
  · split at h
    · rw [List.mem_map] at h
      obtain ⟨d, _, heq⟩ := h
      exact procMsg_ne_mergedMsg s d heq.symm
    · simp at h
  · simp at h

theorem mem_mergeWork (args : Args) (fs : FsState) (d : List Char)
    (h : d ∈ mergeWorkList args fs) :
    skipMergeCond args fs d = false := by
  unfold mergeWorkList at h
  split at h
  · split at h
    · have h2 := (List.mem_filter.mp h).2
      simpa using h2
    · simp at h
  · simp at h

theorem mergedMsg_mem_mergeSkip (args : Args) (fs : FsState) (d : List Char)
    (h : mergedMsg d ∈ mergeSkipList args fs) :
    skipMergeCond args fs d = true := by
  unfold mergeSkipList at h
  split at h
  · split at h
    · rw [List.mem_map] at h
      obtain ⟨d', hd', heq⟩ := h
      have hs : d' = d := subjMsg_inj heq
      rw [← hs]
      exact (List.mem_filter.mp hd').2
    · simp at h
  · simp at h

theorem mergedMsg_not_mem_parseSkip (args : Args) (fs : FsState) (d : List Char) :
    mergedMsg d ∉ parseSkipList args fs := by
  intro h
  unfold parseSkipList at h
  split at h
  · split at h
    · rw [List.mem_singleton] at h
      exact absurd h (subjMsg_ne_noNew d ((" already merged").toList))
    · split at h
      · rw [List.mem_map] at h
        obtain ⟨e, _, heq⟩ := h
        exact procMsg_ne_mergedMsg e.1 d heq
      · simp at h
  · simp at h

/-- C3.  In every processing plan, no unit appears both in a stage's work
list and among that stage's skip-reason entries: a subject in
`subjects_to_parse` has no "already processed" skip reason, and a subject
in `subjects_to_merge` has no "already merged" skip reason. -/
theorem plan_work_skip_disjoint (args : Args) (fs : FsState) (s : List Char) :
    ¬(s ∈ (getProcessingPlan args fs).subjects_to_parse.map Prod.fst ∧
        procMsg s ∈ (getProcessingPlan args fs).skip_reasons) ∧
    ¬(s ∈ (getProcessingPlan args fs).subjects_to_merge ∧
        mergedMsg s ∈ (getProcessingPlan args fs).skip_reasons) := by
  rw [getPlan_eq]
  dsimp only
  constructor
  · rintro ⟨hw, hsk⟩
    have hfalse := mem_parseWork args fs s hw
    rcases List.mem_append.mp hsk with h | h
    · have htrue := procMsg_mem_parseSkip args fs s h
      rw [hfalse] at htrue
      exact Bool.false_ne_true htrue
    · exact procMsg_not_mem_mergeSkip args fs s h
  · rintro ⟨hw, hsk⟩
    have hfalse := mem_mergeWork args fs s hw
    rcases List.mem_append.mp hsk with h | h
    · exact mergedMsg_not_mem_parseSkip args fs s h
    · have htrue := mergedMsg_mem_mergeSkip args fs s h
      rw [hfalse] at htrue
      exact Bool.false_ne_true htrue

/-- C4.  With `force=true`, a unit whose stage output already exists is
still planned for that stage and contributes a `force_reasons` entry: a
discovered subject already processed lands in `subjects_to_parse` with a
"reprocessing (forced)" reason, and an already-merged subject directory
lands in `subjects_to_merge` with a "remerging (forced)" reason. -/
theorem plan_force_rerun (args : Args) (fs : FsState) (s : List Char)
    (files : List (List Char)) :
    ((args.parse_only = true ∨ args.full = true) → args.force = true →
      (s, files) ∈ groupSubjects fs.pdfFiles → fs.isProcessed s = true →
      s ∈ (getProcessingPlan args fs).subjects_to_parse.map Prod.fst ∧
        forceParseMsg s ∈ (getProcessingPlan args fs).force_reasons) ∧
    ((args.merge_only = true ∨ args.full = true) → args.force = true →
      fs.outputDirExists = true → s ∈ mergeDirs fs → checkMerged fs s = true →
      s ∈ (getProcessingPlan args fs).subjects_to_merge ∧
        forceMergeMsg s ∈ (getProcessingPlan args fs).force_reasons) := by
  constructor
  · intro hmode hforce hmem hproc
    rw [getPlan_eq]
    dsimp only
    have hne : fs.pdfFiles ≠ [] := by
      intro h0
      rw [h0] at hmem
      simp [groupSubjects] at hmem
    have hskipF : skipParseCond args fs s = false := by
      unfold skipParseCond
      rw [hforce]
      simp
    have hforceT : forceParseCond args fs s = true := by
      unfold forceParseCond
      rw [hproc, hforce]
      rfl
    have hnotboth : ¬(fs.pdfFiles = [] ∧ args.force = false) := by
      rintro ⟨h0, _⟩
      exact hne h0
    constructor
    · unfold parseWorkList
      rw [if_pos hmode, if_neg hnotboth, if_pos hne, List.mem_map]
      exact ⟨(s, files), List.mem_filter.mpr ⟨hmem, by simp [hskipF]⟩, rfl⟩
    · rw [List.mem_append]
      left
      unfold parseForceList
      rw [if_pos hmode, if_neg hnotboth, if_pos hne, List.mem_map]
      exact ⟨(s, files), List.mem_filter.mpr ⟨hmem, by simp [hskipF, hforceT]⟩, rfl⟩
  · intro hmode hforce hdir hmem hmerged
    rw [getPlan_eq]
    dsimp only
    have hskipF : skipMergeCond args fs s = false := by
      unfold skipMergeCond
      rw [hforce]
      simp
    have hforceT : forceMergeCond args fs s = true := by
      unfold forceMergeCond
      rw [hmerged, hforce]
      rfl
    constructor
    · unfold mergeWorkList
      rw [if_pos hmode, if_pos hdir]
      exact List.mem_filter.mpr ⟨hmem, by simp [hskipF]⟩
    · rw [List.mem_append]
      right
      unfold mergeForceList
      rw [if_pos hmode, if_pos hdir, List.mem_map]
      exact ⟨s, List.mem_filter.mpr ⟨hmem, by simp [hskipF, hforceT]⟩, rfl⟩

/-- C4 witness: a forced full run over one already-processed, already-merged
subject `0001`. -/
theorem plan_force_witness :
    ("0001".toList ∈ (getProcessingPlan ⟨false, false, false, true, true, true⟩
        ⟨["0001a.pdf".toList], true, ["0001".toList], fun _ => true,
          fun _ => some 5⟩).subjects_to_parse.map Prod.fst ∧
      forceParseMsg "0001".toList ∈
        (getProcessingPlan ⟨false, false, false, true, true, true⟩
          ⟨["0001a.pdf".toList], true, ["0001".toList], fun _ => true,
            fun _ => some 5⟩).force_reasons) ∧
    ("0001".toList ∈ (getProcessingPlan ⟨false, false, false, true, true, true⟩
        ⟨["0001a.pdf".toList], true, ["0001".toList], fun _ => true,
          fun _ => some 5⟩).subjects_to_merge ∧
      forceMergeMsg "0001".toList ∈
        (getProcessingPlan ⟨false, false, false, true, true, true⟩
          ⟨["0001a.pdf".toList], true, ["0001".toList], fun _ => true,
            fun _ => some 5⟩).force_reasons) :=
  ⟨(plan_force_rerun ⟨false, false, false, true, true, true⟩
      ⟨["0001a.pdf".toList], true, ["0001".toList], fun _ => true, fun _ => some 5⟩
      "0001".toList ["0001a.pdf".toList]).1
      (Or.inr rfl) rfl (by decide) rfl,
    (plan_force_rerun ⟨false, false, false, true, true, true⟩
      ⟨["0001a.pdf".toList], true, ["0001".toList], fun _ => true, fun _ => some 5⟩
      "0001".toList ["0001a.pdf".toList]).2
      (Or.inr rfl) rfl rfl (by decide) rfl⟩

/-- C10.  A merged artifact of size zero does not count as an existing
merge output: the already-merged check is false, the unit is planned for
merging with no "already merged" skip entry even under
`skipExisting ∧ ¬force`, and in general the check is true exactly for an
existing file of size strictly greater than zero. -/
theorem merged_zero_not_merged (args : Args) (fs : FsState) (d : List Char)
    (hsz : fs.mergedFileSize d = some 0)
    (hmode : args.merge_only = true ∨ args.full = true)
    (hdir : fs.outputDirExists = true)
    (hmem : d ∈ mergeDirs fs)
    (hskip : args.skip_existing = true) (hforce : args.force = false) :
    checkMerged fs d = false ∧
    d ∈ (getProcessingPlan args fs).subjects_to_merge ∧
    mergedMsg d ∉ (getProcessingPlan args fs).skip_reasons ∧
    (∀ s', checkMerged fs s' = true ↔
      ∃ n, fs.mergedFileSize s' = some n ∧ 0 < n) := by
  have hcm : checkMerged fs d = false := by
    unfold checkMerged
    rw [hsz]
    rfl
  have hskipF : skipMergeCond args fs d = false := by
    unfold skipMergeCond
    rw [hcm]
    rfl
  refine ⟨hcm, ?_, ?_, ?_⟩
  · rw [getPlan_eq]
    dsimp only
    unfold mergeWorkList
    rw [if_pos hmode, if_pos hdir]
    exact List.mem_filter.mpr ⟨hmem, by simp [hskipF]⟩
  · rw [getPlan_eq]
    dsimp only
    intro hin
    rcases List.mem_append.mp hin with h | h
    · exact mergedMsg_not_mem_parseSkip args fs d h
    · have htrue := mergedMsg_mem_mergeSkip args fs d h
      rw [hskipF] at htrue
      exact Bool.false_ne_true htrue
  · intro s'
    unfold checkMerged
    cases hms : fs.mergedFileSize s' with
    | none => simp
    | some n =>
      simp only [decide_eq_true_eq, Option.some.injEq]
      constructor
      · intro hn; exact ⟨n, rfl, hn⟩
      · rintro ⟨m, hm, hmpos⟩
        omega

/-- C10 witness: subject `0002` with a zero-byte merged artifact is planned
for merge under `--merge-only` with skip-existing on and no force. -/
theorem merged_zero_witness :
    checkMerged ⟨[], true, ["0002".toList], fun _ => false, fun _ => some 0⟩
        "0002".toList = false ∧
    "0002".toList ∈ (getProcessingPlan ⟨false, true, false, false, false, true⟩
      ⟨[], true, ["0002".toList], fun _ => false, fun _ => some 0⟩).subjects_to_merge ∧
    mergedMsg "0002".toList ∉
      (getProcessingPlan ⟨false, true, false, false, false, true⟩
        ⟨[], true, ["0002".toList], fun _ => false, fun _ => some 0⟩).skip_reasons ∧
    (∀ s', checkMerged ⟨[], true, ["0002".toList], fun _ => false, fun _ => some 0⟩
        s' = true ↔
      ∃ n, (some 0 : Option Nat) = some n ∧ 0 < n) :=
  merged_zero_not_merged ⟨false, true, false, false, false, true⟩
    ⟨[], true, ["0002".toList], fun _ => false, fun _ => some 0⟩
    "0002".toList rfl (Or.inl rfl) rfl (by decide) rfl rfl

/-- C6.  A unit with zero classified document folders merges to the
non-fatal "nothing to merge" outcome: `false`, no artifact written, no
event appended to either log. -/
theorem merge_nothing_to_merge (subject ts : List Char) (folders : List Folder)
    (h : ∀ c, catFolders folders c = []) :
    mergeSubject subject ts folders = (false, none, []) := by
  have h0 : totalDocs folders = 0 := by
    unfold totalDocs
    rw [h Cat.E, h Cat.A, h Cat.BIC, h Cat.O]
    rfl
  unfold mergeSubject
  rw [if_pos h0]

/-- C6 witness: unit `0999` whose only folders are the `merged` scratch
folder and one with an unrecognized suffix. -/
theorem merge_nothing_witness :
    mergeSubject "0999".toList "2024-01-01 00:00:00".toList
      [⟨"merged".toList, true, []⟩, ⟨"doc_X".toList, true, []⟩] =
      (false, none, []) :=
  merge_nothing_to_merge "0999".toList "2024-01-01 00:00:00".toList
    [⟨"merged".toList, true, []⟩, ⟨"doc_X".toList, true, []⟩]
    (fun c => by cases c <;> rfl)

/-- C9.  Evaluating the merge assembly on a unit with a single document in
its only non-empty category: the loop body at `src/main.py:1591-1596`
appends the `"=" * 80` category separator after every non-empty section —
the last one included, contradicting both the claim and the code's own
comment "(except for the last section)" — so the artifact ends with the
separator block. -/
theorem merge_section_separator_after_last :
    mergedLines "0001".toList "2024-01-01 00:00:00".toList
      [⟨"0001E".toList, true, [⟨"1".toList, Except.ok "hello".toList⟩]⟩] =
      ["# Medical Records - Subject 0001".toList, [],
       "*Generated on: 2024-01-01 00:00:00*".toList, [],
       "---".toList, [],
       "# Admission Notes (E)".toList, [],
       "## Document: 0001E".toList, [],
       "## Page 1\n\nhello\n".toList,
       [], List.replicate 80 '=', []] ∧
    (mergedLines "0001".toList "2024-01-01 00:00:00".toList
      [⟨"0001E".toList, true, [⟨"1".toList, Except.ok "hello".toList⟩]⟩]).reverse.take 3 =
      [[], List.replicate 80 '=', []] := by
  constructor
  · decide
  · decide

theorem ne_at1 {a b : Char} {t u : List Char} (h : a ≠ b) : a :: t ≠ b :: u := by
  intro he
  injection he with h1 _
  exact h h1

theorem ne_at2 {a1 b1 a2 b2 : Char} {t u : List Char} (h : a2 ≠ b2) :
    a1 :: a2 :: t ≠ b1 :: b2 :: u := by
  intro he
  injection he with _ he
  injection he with h2 _
  exact h h2

theorem ne_at3 {a1 b1 a2 b2 a3 b3 : Char} {t u : List Char} (h : a3 ≠ b3) :
    a1 :: a2 :: a3 :: t ≠ b1 :: b2 :: b3 :: u := by
  intro he
  injection he with _ he
  injection he with _ he
  injection he with h3 _
  exact h h3

theorem isSectionHeader_eq_false {x : List Char}
    (h : ∀ c : Cat, x ≠ catHeader c) : isSectionHeader x = false := by
  unfold isSectionHeader
  rw [beq_eq_false_iff_ne.mpr (h Cat.E), beq_eq_false_iff_ne.mpr (h Cat.A),
    beq_eq_false_iff_ne.mpr (h Cat.BIC), beq_eq_false_iff_ne.mpr (h Cat.O)]
  rfl

theorem subjLine_not_header (subject : List Char) :
    isSectionHeader ("# Medical Records - Subject ".toList ++ subject) = false := by
  apply isSectionHeader_eq_false
  intro c
  cases c
  case E =>
    show ('#' :: ' ' :: 'M' :: ("edical Records - Subject ".toList ++ subject)) ≠
      ('#' :: ' ' :: 'A' :: "dmission Notes (E)".toList)
    exact ne_at3 (by decide)
  case A =>
    show ('#' :: ' ' :: 'M' :: ("edical Records - Subject ".toList ++ subject)) ≠
      ('#' :: ' ' :: 'R' :: "elease Notes (A)".toList)
    exact ne_at3 (by decide)
  case BIC =>
    show ('#' :: ' ' :: 'M' :: ("edical Records - Subject ".toList ++ subject)) ≠
      ('#' :: ' ' :: 'D' :: "eath Notices (BIC)".toList)
    exact ne_at3 (by decide)
  case O =>
    show ('#' :: ' ' :: 'M' :: ("edical Records - Subject ".toList ++ subject)) ≠
      ('#' :: ' ' :: 'D' :: "eath Certificates (O)".toList)
    exact ne_at3 (by decide)

theorem genLine_not_header (ts : List Char) :
    isSectionHeader (("*Generated on: ".toList ++ ts) ++ "*".toList) = false := by
  apply isSectionHeader_eq_false
  intro c
  cases c
  case E =>
    show ('*' :: (("Generated on: ".toList ++ ts) ++ "*".toList)) ≠
      ('#' :: "# Admission Notes (E)".toList.tail)
    exact ne_at1 (by decide)
  case A =>
    show ('*' :: (("Generated on: ".toList ++ ts) ++ "*".toList)) ≠
      ('#' :: "# Release Notes (A)".toList.tail)
    exact ne_at1 (by decide)
  case BIC =>
    show ('*' :: (("Generated on: ".toList ++ ts) ++ "*".toList)) ≠
      ('#' :: "# Death Notices (BIC)".toList.tail)
    exact ne_at1 (by decide)
  case O =>
    show ('*' :: (("Generated on: ".toList ++ ts) ++ "*".toList)) ≠
      ('#' :: "# Death Certificates (O)".toList.tail)
    exact ne_at1 (by decide)

theorem docHeader_not_header (name : List Char) :
    isSectionHeader ("## Document: ".toList ++ name) = false := by
  apply isSectionHeader_eq_false
  intro c
  cases c
  case E =>
    show ('#' :: '#' :: ("# Document: ".toList.tail ++ name)) ≠
      ('#' :: ' ' :: "Admission Notes (E)".toList)
    exact ne_at2 (by decide)
  case A =>
    show ('#' :: '#' :: ("# Document: ".toList.tail ++ name)) ≠
      ('#' :: ' ' :: "Release Notes (A)".toList)
    exact ne_at2 (by decide)
  case BIC =>
    show ('#' :: '#' :: ("# Document: ".toList.tail ++ name)) ≠
      ('#' :: ' ' :: "Death Notices (BIC)".toList)
    exact ne_at2 (by decide)
  case O =>
    show ('#' :: '#' :: ("# Document: ".toList.tail ++ name)) ≠
      ('#' :: ' ' :: "Death Certificates (O)".toList)
    exact ne_at2 (by decide)

theorem pound2_not_header (t : List Char) :
    isSectionHeader ('#' :: '#' :: t) = false := by
  apply isSectionHeader_eq_false
  intro c
  cases c
  case E =>
    show ('#' :: '#' :: t) ≠ ('#' :: ' ' :: "Admission Notes (E)".toList)
    exact ne_at2 (by decide)
  case A =>
    show ('#' :: '#' :: t) ≠ ('#' :: ' ' :: "Release Notes (A)".toList)
    exact ne_at2 (by decide)
  case BIC =>
    show ('#' :: '#' :: t) ≠ ('#' :: ' ' :: "Death Notices (BIC)".toList)
    exact ne_at2 (by decide)
  case O =>
    show ('#' :: '#' :: t) ≠ ('#' :: ' ' :: "Death Certificates (O)".toList)
    exact ne_at2 (by decide)

theorem joinNl_head_parts (l : List Char) (ls : List (List Char)) :
    ∃ t, joinNl (l :: ls) = l ++ t := by
  cases ls with
  | nil => exact ⟨[], (List.append_nil l).symm⟩
  | cons m ms => exact ⟨'\n' :: joinNl (m :: ms), rfl⟩

theorem pageChunk_head (p : Page) :
    ∃ tail, pageChunk p = ("## Page ".toList ++ p.num) :: tail := by
  cases hc : p.content with
  | ok c => exact ⟨_, by unfold pageChunk; rw [hc]⟩
  | error e => exact ⟨_, by unfold pageChunk; rw [hc]⟩

theorem mergePages_shape (f : Folder) (h : mergePages f ≠ []) :
    ∃ t, mergePages f = '#' :: '#' :: t := by
  unfold mergePages at h ⊢
  by_cases h1 : f.hasMarkdown = false
  · rw [if_pos h1] at h
    exact absurd rfl h
  · rw [if_neg h1] at h ⊢
    by_cases h2 : sortStable
        (fun p q => decide (natOfDigits p.num ≤ natOfDigits q.num)) f.pages = []
    · rw [if_pos h2] at h
      exact absurd rfl h
    · rw [if_neg h2] at h ⊢
      obtain ⟨p, rest, hpr⟩ : ∃ p rest,
          sortStable (fun p q => decide (natOfDigits p.num ≤ natOfDigits q.num))
            f.pages = p :: rest := by
        cases hs : sortStable
            (fun p q => decide (natOfDigits p.num ≤ natOfDigits q.num)) f.pages with
        | nil => exact absurd hs h2
        | cons p rest => exact ⟨p, rest, rfl⟩
      rw [hpr]
      obtain ⟨tail, htail⟩ := pageChunk_head p
      rw [List.map_cons, List.flatten_cons, htail, List.cons_append]
      obtain ⟨t, ht⟩ := joinNl_head_parts ("## Page ".toList ++ p.num)
        (tail ++ (List.map pageChunk rest).flatten)
      rw [ht]
      exact ⟨"# Page ".toList.tail ++ p.num ++ t, by
        show ('#' :: ('#' :: " Page ".toList) ++ p.num) ++ t = _
        rw [List.cons_append, List.cons_append]
        rfl⟩

theorem bool_neg_of_eq_false {b : Bool} (h : b = false) : ¬(b = true) := by
  rw [h]
  exact Bool.false_ne_true

theorem filter_docEntry (f : Folder) :
    (docEntry f).filter isSectionHeader = [] := by
  unfold docEntry
  have hnil : isSectionHeader [] = false := by decide
  by_cases h : mergePages f = []
  · rw [if_pos h]
    have hplc : isSectionHeader
        "*No content available for this document.*".toList = false := by decide
    rw [List.cons_append, List.cons_append, List.nil_append,
      List.filter_cons_of_neg (bool_neg_of_eq_false (docHeader_not_header f.name)),
      List.filter_cons_of_neg (bool_neg_of_eq_false hnil),
      List.filter_cons_of_neg (bool_neg_of_eq_false hplc),
      List.filter_cons_of_neg (bool_neg_of_eq_false hnil)]
    rfl
  · rw [if_neg h]
    obtain ⟨t, ht⟩ := mergePages_shape f h
    rw [ht]
    rw [List.cons_append, List.cons_append, List.nil_append,
      List.filter_cons_of_neg (bool_neg_of_eq_false (docHeader_not_header f.name)),
      List.filter_cons_of_neg (bool_neg_of_eq_false hnil),
      List.filter_cons_of_neg (bool_neg_of_eq_false (pound2_not_header t))]
    rfl

theorem filter_docsLines (fl : List Folder) :
    (docsLines fl).filter isSectionHeader = [] := by
  induction fl with
  | nil => rfl
  | cons f rest ih =>
    cases rest with
    | nil => exact filter_docEntry f
    | cons g rest' =>
      rw [show docsLines (f :: g :: rest') =
          docEntry f ++ ([[], "---".toList, []] : List (List Char)) ++
            docsLines (g :: rest') from rfl]
      rw [List.filter_append, List.filter_append, filter_docEntry f, ih]
      simp
      decide

theorem filter_sectionLines (folders : List Folder) (c : Cat) :
    (sectionLines folders c).filter isSectionHeader =
      if catFolders folders c = [] then [] else [catHeader c] := by
  unfold sectionLines
  by_cases h : catFolders folders c = []
  · rw [if_pos h, if_pos h]
    rfl
  · rw [if_neg h, if_neg h]
    rw [List.filter_append, List.filter_append, filter_docsLines]
    have hh : isSectionHeader (catHeader c) = true := by
      cases c <;> rfl
    have hb : ([[], barLine, []] : List (List Char)).filter isSectionHeader = [] := by
      decide
    have hnil : isSectionHeader [] = false := by decide
    simp [List.filter_cons, hh, hnil, hb]

theorem insertStable_ne_nil {α : Type} (le : α → α → Bool) (x : α) (l : List α) :
    insertStable le x l ≠ [] := by
  cases l with
  | nil => simp [insertStable]
  | cons y ys =>
    unfold insertStable
    by_cases h : le y x = true
    · rw [if_pos h]
      simp
    · rw [if_neg h]
      simp

theorem foldl_insertStable_ne_nil {α : Type} (le : α → α → Bool) :
    ∀ (l : List α) (acc : List α), acc ≠ [] →
      l.foldl (fun acc x => insertStable le x acc) acc ≠ [] := by
  intro l
  induction l with
  | nil => intro acc h; exact h
  | cons a rest ih =>
    intro acc _
    exact ih (insertStable le a acc) (insertStable_ne_nil le a acc)

theorem sortStable_eq_nil_iff {α : Type} (le : α → α → Bool) (l : List α) :
    sortStable le l = [] ↔ l = [] := by
  constructor
  · intro h
    cases l with
    | nil => rfl
    | cons a rest =>
      exact absurd h
        (foldl_insertStable_ne_nil le rest (insertStable le a [])
          (insertStable_ne_nil le a []))
  · intro h
    rw [h]
    rfl

theorem catFolders_nil_iff (folders : List Folder) (c : Cat) :
    catFolders folders c = [] ↔
      ∀ f ∈ folders,
        ¬((!(f.name == "merged".toList) && classifyName f.name == some c) = true) := by
  unfold catFolders
  rw [sortStable_eq_nil_iff, List.filter_eq_nil_iff]

theorem catFolders_nil_perm {folders folders' : List Folder}
    (hperm : folders.Perm folders') (c : Cat) :
    (catFolders folders c = []) ↔ (catFolders folders' c = []) := by
  rw [catFolders_nil_iff, catFolders_nil_iff]
  constructor
  · intro h f hf
    exact h f (hperm.mem_iff.mpr hf)
  · intro h f hf
    exact h f (hperm.mem_iff.mp hf)

theorem filter_mergedLines (subject ts : List Char) (folders : List Folder) :
    (mergedLines subject ts folders).filter isSectionHeader =
      ([Cat.E, Cat.A, Cat.BIC, Cat.O].filter
        (fun c => !(catFolders folders c == []))).map catHeader := by
  unfold mergedLines headerBlock
  rw [List.filter_append, List.filter_append, List.filter_append,
    List.filter_append]
  rw [filter_sectionLines, filter_sectionLines, filter_sectionLines,
    filter_sectionLines]
  have h1 := subjLine_not_header subject
  have h2 := genLine_not_header ts
  have hnil : isSectionHeader [] = false := by decide
  have hdash : isSectionHeader "---".toList = false := by decide
  have hhead : (["# Medical Records - Subject ".toList ++ subject, [],
      ("*Generated on: ".toList ++ ts) ++ "*".toList, [],
      "---".toList, []] : List (List Char)).filter isSectionHeader = [] := by
    rw [List.filter_cons_of_neg (bool_neg_of_eq_false h1),
      List.filter_cons_of_neg (bool_neg_of_eq_false hnil),
      List.filter_cons_of_neg (bool_neg_of_eq_false h2),
      List.filter_cons_of_neg (bool_neg_of_eq_false hnil),
      List.filter_cons_of_neg (bool_neg_of_eq_false hdash),
      List.filter_cons_of_neg (bool_neg_of_eq_false hnil)]
    rfl
  rw [hhead]
  by_cases hE : catFolders folders Cat.E = [] <;>
    by_cases hA : catFolders folders Cat.A = [] <;>
      by_cases hB : catFolders folders Cat.BIC = [] <;>
        by_cases hO : catFolders folders Cat.O = [] <;>
          simp [hE, hA, hB, hO, List.filter_cons]

/-- C5.  The merged artifact's category section headers appear exactly in
the fixed clinical order E, A, BIC, O restricted to non-empty buckets;
the header sequence is invariant under permuting the on-disk folder
iteration order; and with documents in both E and A, the E header strictly
precedes the A header. -/
theorem merge_category_order (subject ts : List Char) (folders folders' : List Folder)
    (hperm : folders.Perm folders') :
    (mergedLines subject ts folders).filter isSectionHeader =
      ([Cat.E, Cat.A, Cat.BIC, Cat.O].filter
        (fun c => !(catFolders folders c == []))).map catHeader ∧
    (mergedLines subject ts folders').filter isSectionHeader =
      (mergedLines subject ts folders).filter isSectionHeader ∧
    (catFolders folders Cat.E ≠ [] → catFolders folders Cat.A ≠ [] →
      ∃ t, (mergedLines subject ts folders).filter isSectionHeader =
        catHeader Cat.E :: catHeader Cat.A :: t) := by
  refine ⟨filter_mergedLines subject ts folders, ?_, ?_⟩
  · rw [filter_mergedLines, filter_mergedLines]
    congr 1
    apply List.filter_congr
    intro c _
    by_cases h : catFolders folders c = []
    · rw [h, (catFolders_nil_perm hperm c).mp h]
    · have h' : ¬(catFolders folders' c = []) := fun hh =>
        h ((catFolders_nil_perm hperm c).mpr hh)
      rw [beq_eq_false_iff_ne.mpr h', beq_eq_false_iff_ne.mpr h]
  · intro hE hA
    rw [filter_mergedLines]
    have hE' : (!(catFolders folders Cat.E == ([] : List Folder))) = true := by
      rw [beq_eq_false_iff_ne.mpr hE]
      rfl
    have hA' : (!(catFolders folders Cat.A == ([] : List Folder))) = true := by
      rw [beq_eq_false_iff_ne.mpr hA]
      rfl
    refine ⟨([Cat.BIC, Cat.O].filter
      (fun c => !(catFolders folders c == []))).map catHeader, ?_⟩
    simp only [List.filter_cons, hE', hA', if_true, List.map_cons]

/-- C5 witness: unit `2401` with one E document and one A document, the
on-disk iteration order reversed between the two runs. -/
theorem merge_category_order_witness :
    (mergedLines "2401".toList "2024-01-01 00:00:00".toList
      [⟨"2401E".toList, true, [⟨"1".toList, Except.ok "adm".toList⟩]⟩,
       ⟨"2401A".toList, true, [⟨"1".toList, Except.ok "rel".toList⟩]⟩]).filter
        isSectionHeader =
      ([Cat.E, Cat.A, Cat.BIC, Cat.O].filter
        (fun c => !(catFolders
          [⟨"2401E".toList, true, [⟨"1".toList, Except.ok "adm".toList⟩]⟩,
           ⟨"2401A".toList, true, [⟨"1".toList, Except.ok "rel".toList⟩]⟩]
          c == []))).map catHeader ∧
    (mergedLines "2401".toList "2024-01-01 00:00:00".toList
      [⟨"2401A".toList, true, [⟨"1".toList, Except.ok "rel".toList⟩]⟩,
       ⟨"2401E".toList, true, [⟨"1".toList, Except.ok "adm".toList⟩]⟩]).filter
        isSectionHeader =
      (mergedLines "2401".toList "2024-01-01 00:00:00".toList
        [⟨"2401E".toList, true, [⟨"1".toList, Except.ok "adm".toList⟩]⟩,
         ⟨"2401A".toList, true, [⟨"1".toList, Except.ok "rel".toList⟩]⟩]).filter
          isSectionHeader ∧
    ∃ t, (mergedLines "2401".toList "2024-01-01 00:00:00".toList
      [⟨"2401E".toList, true, [⟨"1".toList, Except.ok "adm".toList⟩]⟩,
       ⟨"2401A".toList, true, [⟨"1".toList, Except.ok "rel".toList⟩]⟩]).filter
        isSectionHeader = catHeader Cat.E :: catHeader Cat.A :: t := by
  have h := merge_category_order "2401".toList "2024-01-01 00:00:00".toList
    [⟨"2401E".toList, true, [⟨"1".toList, Except.ok "adm".toList⟩]⟩,
     ⟨"2401A".toList, true, [⟨"1".toList, Except.ok "rel".toList⟩]⟩]
    [⟨"2401A".toList, true, [⟨"1".toList, Except.ok "rel".toList⟩]⟩,
     ⟨"2401E".toList, true, [⟨"1".toList, Except.ok "adm".toList⟩]⟩]
    (by decide)
  exact ⟨h.1, h.2.1, h.2.2 (by decide) (by decide)⟩

/-- C2 witness: a concrete application — one recorded file whose digest
changed makes the subject stale. -/
theorem stale_iff_witness :
    isStaleSubject [HistEvent.mk "parse".toList [("a.pdf".toList, "0aa".toList)]]
      [("a.pdf".toList, "0bb".toList)] = true :=
  (stale_iff_spec
    [HistEvent.mk "parse".toList [("a.pdf".toList, "0aa".toList)]]
    [("a.pdf".toList, "0bb".toList)]).1.mpr
    ⟨HistEvent.mk "parse".toList [("a.pdf".toList, "0aa".toList)], by decide,
      ("a.pdf".toList, "0bb".toList), by decide,
      Or.inr ⟨"0aa".toList, by decide, by decide⟩⟩

/-- C1.  As stated the claim is false: removing a boilerplate string can
create a fresh occurrence of a boilerplate string, which only the second
clean pass removes.  At `"EmaEmail:il:"` the first pass yields `"Email:"`
and the second pass yields `""`. -/
theorem clean_not_idempotent :
    cleanText (cleanText "EmaEmail:il:".toList) ≠ cleanText "EmaEmail:il:".toList := by
  decide

/-- C1 (amended).  The clean transform is idempotent on every input whose
cleaned output contains no occurrence of a configured boilerplate string:
removal is then a no-op on the cleaned text, and whitespace normalization
is a fixed point of itself. -/
theorem clean_idempotent_when_stripped (x : List Char)
    (h : ∀ e ∈ expressionsToRemove, occursIn e (cleanText x) = false) :
    cleanText (cleanText x) = cleanText x := by
  show wsNorm (removeExprs expressionsToRemove (cleanText x)) = cleanText x
  rw [removeExprs_of_absent expressionsToRemove (cleanText x) h]
  exact wsNorm_idem (removeExprs expressionsToRemove x)

/-- C1 witness: a concrete run of the amended idempotence theorem. -/
theorem clean_idempotent_witness :
    cleanText (cleanText "Hello\n\n\n   World\n\n".toList) =
      cleanText "Hello\n\n\n   World\n\n".toList :=
  clean_idempotent_when_stripped ("Hello\n\n\n   World\n\n".toList) (by decide)

/-- C7.  As stated the claim is false on both conjuncts.  Removing
`"SÃO JOÃO"` from `"SÃSÃO JOÃOO JOÃO"` creates a fresh occurrence that
survives cleaning; and on `"Tel. : 225512100  Email:"` the reported count
is 1 while the configured strings occur 2 times in the original (the
`"Email:"` occurrence is nested inside the longer string and is never
counted). -/
theorem clean_boilerplate_counterexample :
    ("SÃO JOÃO".toList ∈ expressionsToRemove ∧
      occursIn "SÃO JOÃO".toList (cleanText "SÃSÃO JOÃOO JOÃO".toList) = true) ∧
    cleanRemovals "Tel. : 225512100  Email:".toList ≠
      (expressionsToRemove.map
        (fun e => countOcc e "Tel. : 225512100  Email:".toList)).sum := by
  decide

/-- C7 (amended).  For every merged text whose boilerplate-removal output
contains no configured string, the cleaned output contains no occurrence of
any configured string; and, unconditionally, the reported removal count
equals the sum, over the configured strings in list order, of the number of
non-overlapping occurrences present at the moment that string is processed
(i.e. after the earlier strings in the list have been removed). -/
theorem clean_boilerplate_amended (x : List Char) :
    ((∀ e ∈ expressionsToRemove,
        occursIn e (removeExprs expressionsToRemove x) = false) →
      ∀ e ∈ expressionsToRemove, occursIn e (cleanText x) = false) ∧
    cleanRemovals x =
      ((List.range expressionsToRemove.length).map
        (fun i => countOcc (expressionsToRemove.getD i [])
          (removeExprs (expressionsToRemove.take i) x))).sum := by
  constructor
  · intro h e he
    obtain ⟨hne, hnl⟩ := exprs_wf e he
    by_contra hocc
    have hocc' : occursIn e (cleanText x) = true := by
      cases hb : occursIn e (cleanText x)
      · exact absurd hb hocc
      · rfl
    exact absurd (occursIn_wsNorm e (removeExprs expressionsToRemove x) hne hnl hocc')
      (by rw [h e he]; exact Bool.false_ne_true)
  · exact removeCount_snd_eq_sum expressionsToRemove x

/-- C7 witness: a concrete run of the amended boilerplate theorem on a text
holding one boilerplate occurrence, its no-cascade hypothesis discharged. -/
theorem clean_boilerplate_witness :
    (∀ e ∈ expressionsToRemove,
      occursIn e (cleanText "nota\nTel.: 225512100\n\n\nfim".toList) = false) ∧
    cleanRemovals "nota\nTel.: 225512100\n\n\nfim".toList =
      ((List.range expressionsToRemove.length).map
        (fun i => countOcc (expressionsToRemove.getD i [])
          (removeExprs (expressionsToRemove.take i)
            "nota\nTel.: 225512100\n\n\nfim".toList))).sum :=
  ⟨(clean_boilerplate_amended ("nota\nTel.: 225512100\n\n\nfim".toList)).1 (by decide),
    (clean_boilerplate_amended ("nota\nTel.: 225512100\n\n\nfim".toList)).2⟩

end TheParser
